import Mathlib

set_option maxRecDepth 10000

/-!
Verification of the binary codec layer of the models repository against its
natural-language specification.

The embedding mirrors the TypeScript sources:
  * byte buffers are lists of naturals (each byte taken mod 256, as a Node
    `Buffer` cell is always 0..255), and the `BinaryDecoder` cursor becomes
    explicit positions threaded through the reading functions;
  * reads past the end of the buffer fail, so fallible decoders return
    `Option` (a JavaScript `throw` becomes `none`);
  * `decoder.skip`/`decoder.seek` do no bounds checking in the source, so
    they are plain position arithmetic here;
  * `decoder.slice`, like Node's `Buffer.slice`, clamps at the end of the
    buffer, so `sliceAt` is total;
  * the streaming variant's ranged file reads become slices of the full
    byte sequence.
-/

namespace S4TK

/-- One little-endian value from a list of bytes (least significant first).
Each cell is reduced mod 256, exactly the range a Node `Buffer` cell has. -/
def leVal : List Nat → Nat
  | [] => 0
  | b :: bs => b % 256 + 256 * leVal bs

/-- Read exactly `n` bytes at `pos`; fails (like the decoder's RangeError)
when the read would pass the end of the buffer. -/
def readBytesAt (buf : List Nat) (pos n : Nat) : Option (List Nat) :=
  if pos + n ≤ buf.length then some ((buf.drop pos).take n) else none

/-- Read an `n`-byte little-endian unsigned integer at `pos`
(`uint8`/`uint16`/`uint32`/`uint64` of `BinaryDecoder` are `n` = 1, 2, 4, 8). -/
def readUIntLE (buf : List Nat) (pos n : Nat) : Option Nat :=
  (readBytesAt buf pos n).map leVal

/-- Reinterpret an `n`-bit unsigned value as two's-complement signed
(`int16`/`int32` of `BinaryDecoder`). -/
def toSigned (v : Nat) (bits : Nat) : Int :=
  if v < 2 ^ (bits - 1) then (v : Int) else (v : Int) - 2 ^ bits

/-- `decoder.slice(n)` at `pos`: like Node's `Buffer.slice`, clamps at the
end of the buffer. Also models one ranged read of the backing file in the
streaming container variant. -/
def sliceAt (buf : List Nat) (pos n : Nat) : List Nat :=
  (buf.drop pos).take n

end S4TK

namespace S4TK.Dbpf

/-! Embedding of `src/lib/packages/serialization/read-dbpf.ts`. -/

/-- The four magic bytes "DBPF". -/
def dbpfMagic : List Nat := [68, 66, 80, 70]

/-- `CompressionType.DeletedRecord` of the external compression package
(`@s4tk/compression`), the reserved sentinel 0xFFE0. Modelled from the spec:
the compression-type codes are an external closed set including a "deleted
record" sentinel; only the numeral is taken from the package's enum. -/
def deletedRecordCT : Nat := 65504

/-- The fields of `DbpfHeader` that `readDbpf` uses. -/
structure DbpfHeader where
  mnIndexRecordEntryCount : Nat
  mnIndexRecordPositionLow : Nat
  mnIndexRecordPosition : Nat
deriving DecidableEq

/-- `readDbpfHeader` (read-dbpf.ts lines 75-106). Absolute positions stand in
for the cursor: validation reads sit at 0/4/8 and 60, the data fields at
36/40/64, and the skips in between become position jumps. In recovery mode
the three validated fields are skipped, not read. -/
def readDbpfHeader (buf : List Nat) (recoveryMode : Bool) : Option DbpfHeader :=
  (if recoveryMode then some () else
    (readBytesAt buf 0 4).bind fun magic =>
    if magic = dbpfMagic then
      (readUIntLE buf 4 4).bind fun major =>
      (readUIntLE buf 8 4).bind fun minor =>
      if major = 2 ∧ minor = 1 then some () else none
    else none).bind fun _ =>
  (readUIntLE buf 36 4).bind fun count =>
  (readUIntLE buf 40 4).bind fun posLow =>
  (if recoveryMode then some () else
    (readUIntLE buf 60 4).bind fun unused4 =>
    if unused4 = 3 then some () else none).bind fun _ =>
  (readUIntLE buf 64 8).bind fun pos64 =>
  some ⟨count, posLow, pos64⟩

/-- `DbpfFlags`: a constant key field is present exactly when its flag bit
is set. -/
structure DbpfFlags where
  constantTypeId : Option Nat
  constantGroupId : Option Nat
  constantInstanceIdEx : Option Nat
deriving DecidableEq

/-- One conditional constant-field read of `readDbpfFlags`: if the bit is
set, read a uint32 and consume 4 bytes, else nothing. Returns (value, bytes
consumed). -/
def readFlagField (buf : List Nat) (pos : Nat) (bitSet : Bool) :
    Option (Option Nat × Nat) :=
  if bitSet then (readUIntLE buf pos 4).map fun v => (some v, 4)
  else some (none, 0)

/-- `readDbpfFlags` (read-dbpf.ts lines 114-125): one flag byte, a 3-byte
skip, then up to three conditional uint32s. Returns the flags and the total
bytes consumed (`decoder.tell()` relative to `start`). -/
def readDbpfFlags (buf : List Nat) (start : Nat) : Option (DbpfFlags × Nat) :=
  (readUIntLE buf start 1).bind fun flags =>
  (readFlagField buf (start + 4) (flags.testBit 0)).bind fun tc =>
  (readFlagField buf (start + 4 + tc.2) (flags.testBit 1)).bind fun gc =>
  (readFlagField buf (start + 4 + tc.2 + gc.2) (flags.testBit 2)).bind fun ic =>
  some (⟨tc.1, gc.1, ic.1⟩, 4 + tc.2 + gc.2 + ic.2)

/-- A resource key `(type, group, instance)`; instance is the 64-bit
`(instanceEx << 32) + instance` combination. -/
structure ResourceKey where
  type : Nat
  group : Nat
  inst : Nat
deriving DecidableEq

/-- One key field inside an index entry: the constant value when the flags
carry one (consuming nothing), else a uint32 read (consuming 4 bytes). -/
def readKeyField (buf : List Nat) (pos : Nat) (c : Option Nat) :
    Option (Nat × Nat) :=
  match c with
  | some v => some (v, 0)
  | none => (readUIntLE buf pos 4).map fun v => (v, 4)

/-- The key part of one index entry (read-dbpf.ts lines 138-143). Returns
the key and the bytes consumed. -/
def readResourceKey (buf : List Nat) (pos : Nat) (flags : DbpfFlags) :
    Option (ResourceKey × Nat) :=
  (readKeyField buf pos flags.constantTypeId).bind fun t =>
  (readKeyField buf (pos + t.2) flags.constantGroupId).bind fun g =>
  (readKeyField buf (pos + t.2 + g.2) flags.constantInstanceIdEx).bind fun ie =>
  (readUIntLE buf (pos + t.2 + g.2 + ie.2) 4).bind fun il =>
  some (⟨t.1, g.1, ie.1 * 2 ^ 32 + il⟩, t.2 + g.2 + ie.2 + 4)

/-- An index entry as `readDbpfIndex` builds it; `mnCompressionType` is
`none` when the compression bit was clear (the field is left unset in the
source). -/
structure IndexEntry where
  key : ResourceKey
  mnPosition : Nat
  mnSize : Nat
  mnSizeDecompressed : Nat
  mnCompressionType : Option Nat
deriving DecidableEq

/-- A resource filter over `(type, group, instance)`. -/
abbrev ResourceFilter := Nat → Nat → Nat → Bool

/-- The non-filtered tail of one index entry (read-dbpf.ts lines 152-161):
position word, size-and-compression word, decompressed size, a conditional
16-bit compression type, a 2-byte skip, and the deleted-record drop. `ck`
is what the key part consumed; the returned count is the whole entry's
consumption. -/
def readIndexEntryTail (buf : List Nat) (pos ck : Nat) (key : ResourceKey) :
    Option (Option IndexEntry × Nat) :=
  (readUIntLE buf (pos + ck) 4).bind fun mnPosition =>
  (readUIntLE buf (pos + ck + 4) 4).bind fun szc =>
  (readUIntLE buf (pos + ck + 8) 4).bind fun szDec =>
  (if szc >>> 31 = 1 then
    (readUIntLE buf (pos + ck + 12) 2).map fun v => (some v, ck + 14)
   else some (none, ck + 12)).bind fun ct =>
  if ct.1 = some deletedRecordCT then some (none, ct.2 + 2)
  else some (some ⟨key, mnPosition, szc &&& 0x7FFFFFFF, szDec, ct.1⟩, ct.2 + 2)

/-- One index entry (read-dbpf.ts lines 136-163): the key, then either the
filter-reject branch (skip 4, read the size word to learn the entry's width,
skip the rest) or the full entry. Returns the optional entry (`none` both
for a filtered and for a deleted entry) and the bytes consumed. -/
def readIndexEntry (buf : List Nat) (pos : Nat) (flags : DbpfFlags)
    (filter : Option ResourceFilter) : Option (Option IndexEntry × Nat) :=
  (readResourceKey buf pos flags).bind fun kc =>
  match filter with
  | some f =>
    if f kc.1.type kc.1.group kc.1.inst then
      readIndexEntryTail buf pos kc.2 kc.1
    else
      (readUIntLE buf (pos + kc.2 + 4) 4).bind fun szc =>
      some (none, kc.2 + 8 + (if szc >>> 31 = 1 then 8 else 6))
  | none => readIndexEntryTail buf pos kc.2 kc.1

/-- `readDbpfIndex`: `count` entries in sequence, dropped entries skipped
(`makeList` with null-skipping). -/
def readDbpfIndex (buf : List Nat) (flags : DbpfFlags)
    (filter : Option ResourceFilter) : Nat → Nat → Option (List IndexEntry)
  | 0, _ => some []
  | n + 1, pos =>
    (readIndexEntry buf pos flags filter).bind fun ec =>
    (readDbpfIndex buf flags filter n (pos + ec.2)).map fun rest =>
    match ec.1 with
    | some e => e :: rest
    | none => rest

/-- What the container decoder hands to `getResource` for one retained
entry: the key, the index entry and the raw payload slice. `getResource`
is a function of exactly these values and the options, so two decoders
that produce the same `DecodedEntry` list produce the same
`(key, resource)` list. -/
structure DecodedEntry where
  key : ResourceKey
  entry : IndexEntry
  payload : List Nat
deriving DecidableEq

/-- `readDbpf` (read-dbpf.ts lines 18-33): header, seek to the index
position (the 64-bit field wins when non-zero), flags, index, then one
payload slice per retained entry. -/
def readDbpf (buf : List Nat) (recoveryMode : Bool)
    (filter : Option ResourceFilter) : Option (List DecodedEntry) :=
  (readDbpfHeader buf recoveryMode).bind fun header =>
  let flagsPos := if header.mnIndexRecordPosition ≠ 0 then
    header.mnIndexRecordPosition else header.mnIndexRecordPositionLow
  (readDbpfFlags buf flagsPos).bind fun fc =>
  (readDbpfIndex buf fc.1 filter header.mnIndexRecordEntryCount
      (flagsPos + fc.2)).map fun index =>
  index.map fun e => ⟨e.key, e, sliceAt buf e.mnPosition e.mnSize⟩

/-- `streamDbpf` (read-dbpf.ts lines 41-64): the header from a 96-byte
ranged read at 0 (note the source does not forward `options`, so the header
is always validated), the flags from a 16-byte ranged read at the index
position, the index from a ranged read of `entryCount * 32` bytes, then one
independent ranged read per payload. -/
def streamDbpf (file : List Nat) (recoveryMode : Bool)
    (filter : Option ResourceFilter) : Option (List DecodedEntry) :=
  (readDbpfHeader (sliceAt file 0 96) false).bind fun header =>
  let flagsPos := if header.mnIndexRecordPosition ≠ 0 then
    header.mnIndexRecordPosition else header.mnIndexRecordPositionLow
  (readDbpfFlags (sliceAt file flagsPos 16) 0).bind fun fc =>
  let indexPos := flagsPos + fc.2
  (readDbpfIndex (sliceAt file indexPos (header.mnIndexRecordEntryCount * 32))
      fc.1 filter header.mnIndexRecordEntryCount 0).map fun index =>
  index.map fun e => ⟨e.key, e, sliceAt file e.mnPosition e.mnSize⟩

end S4TK.Dbpf

namespace S4TK.Data

/-! Embedding of `src/lib/resources/data/data-types.ts` and of the row/value
phase of `src/lib/resources/combined-tuning/serialization/read-data.ts`. -/

/-- `SimDataType` (data-types.ts lines 5-29); the numeric codes are the
declaration order, "they match the BT". The DATA reader's `DataType` enum
(`enums/data-type`, a file not among the sources) carries the same codes. -/
inductive SimDataType where
  | Boolean | Character | Int8 | UInt8 | Int16 | UInt16 | Int32 | UInt32
  | Int64 | UInt64 | Float | String | HashedString | Object | Vector
  | Float2 | Float3 | Float4 | TableSetReference | ResourceKey
  | LocalizationKey | Variant | Undefined
deriving DecidableEq

namespace SimDataType

/-- The numeric code of a type, as the TypeScript enum value. -/
def toCode : SimDataType → Nat
  | .Boolean => 0 | .Character => 1 | .Int8 => 2 | .UInt8 => 3
  | .Int16 => 4 | .UInt16 => 5 | .Int32 => 6 | .UInt32 => 7
  | .Int64 => 8 | .UInt64 => 9 | .Float => 10 | .String => 11
  | .HashedString => 12 | .Object => 13 | .Vector => 14 | .Float2 => 15
  | .Float3 => 16 | .Float4 => 17 | .TableSetReference => 18
  | .ResourceKey => 19 | .LocalizationKey => 20 | .Variant => 21
  | .Undefined => 22

/-- The type for a raw code from a DATA buffer. A code outside the enum is
mapped to `Undefined`: `getAlignment` sends both to its `default` branch
(returning 1) exactly as the TypeScript switch does, and a value read of
either is treated as a failure (the TypeScript switch throws for `Undefined`
and falls through returning `undefined` for codes outside the enum; both are
decode failures here). -/
def ofCode (n : Nat) : SimDataType :=
  match n with
  | 0 => .Boolean | 1 => .Character | 2 => .Int8 | 3 => .UInt8
  | 4 => .Int16 | 5 => .UInt16 | 6 => .Int32 | 7 => .UInt32
  | 8 => .Int64 | 9 => .UInt64 | 10 => .Float | 11 => .String
  | 12 => .HashedString | 13 => .Object | 14 => .Vector | 15 => .Float2
  | 16 => .Float3 | 17 => .Float4 | 18 => .TableSetReference
  | 19 => .ResourceKey | 20 => .LocalizationKey | 21 => .Variant
  | _ => .Undefined

end SimDataType

/-- `SimDataTypeUtils.getAlignment` (data-types.ts lines 78-109); the
`default` branch returns 1. The DATA reader imports `getAlignment` from
`common/data-type-helpers`, a file not among the sources; this same table is
the one it uses (the spec gives one per-type table for both). -/
def getAlignment : SimDataType → Nat
  | .Boolean | .Character | .Int8 | .UInt8 => 1
  | .Int16 | .UInt16 => 2
  | .Int32 | .UInt32 | .Float | .String | .HashedString | .Object | .Vector
  | .Float2 | .Float3 | .Float4 | .LocalizationKey | .Variant => 4
  | .Int64 | .UInt64 | .TableSetReference | .ResourceKey => 8
  | .Undefined => 1

/-- `SimDataTypeUtils.getBytes` (data-types.ts lines 116-149); the `default`
branch throws, hence `none`. -/
def getBytes : SimDataType → Option Nat
  | .Boolean | .Character | .Int8 | .UInt8 => some 1
  | .Int16 | .UInt16 => some 2
  | .Int32 | .UInt32 | .Float | .String | .Object | .LocalizationKey => some 4
  | .Int64 | .UInt64 | .HashedString | .Vector | .Float2
  | .TableSetReference | .Variant => some 8
  | .Float3 => some 12
  | .Float4 | .ResourceKey => some 16
  | .Undefined => none

/-- The spec's per-type table (§4.3, "Per-type fixed byte width and
alignment"): `(bytes, alignment)` per type. This definition follows the
spec's words, for comparison with the source's `getBytes`/`getAlignment`;
`Undefined` has no row. -/
def specTypeTable : SimDataType → Option (Nat × Nat)
  | .Boolean | .Int8 | .UInt8 | .Character => some (1, 1)
  | .Int16 | .UInt16 => some (2, 2)
  | .Int32 | .UInt32 | .Float | .String | .LocalizationKey | .Object => some (4, 4)
  | .HashedString | .Vector | .Float2 | .Variant => some (8, 4)
  | .Int64 | .UInt64 | .TableSetReference => some (8, 8)
  | .Float3 => some (12, 4)
  | .Float4 | .ResourceKey => some (16, 8)
  | .Undefined => none

/-- The source's per-type table amended no more than the counterexample
forces: identical to `specTypeTable` except that `Float4` has alignment 4
(data-types.ts line 97 groups `Float4` with the 4-aligned types). -/
def amendedTypeTable : SimDataType → Option (Nat × Nat)
  | .Float4 => some (16, 4)
  | t => specTypeTable t

/-- `RELOFFSET_NULL` (read-data.ts line 15). -/
def RELOFFSET_NULL : Int := -0x80000000

/-- The UTF-8 bytes of the literal "Unnamed" (read-data.ts line 102).
Strings stay byte lists throughout; UTF-8 decoding is external. -/
def unnamedBytes : List Nat := [85, 110, 110, 97, 109, 101, 100]

/-- Bytes up to (excluding) the first null byte: `decoder.string()` reads a
null-terminated string, stopping at the terminator or the buffer's end. -/
def takeUntilZero : List Nat → List Nat
  | [] => []
  | b :: bs => if b % 256 = 0 then [] else b % 256 :: takeUntilZero bs

/-- `readString(offset)` of the DATA reader (read-data.ts lines 35-40): the
null-terminated string at an absolute offset, cursor restored by `savePos`
(so no position is threaded). A negative offset makes the underlying buffer
read throw, hence `none`. -/
def readStringRel (buf : List Nat) (off : Int) : Option (List Nat) :=
  if off < 0 then none else some (takeUntilZero (buf.drop off.toNat))

/-- `readNamed` (read-data.ts lines 101-104): the null sentinel resolves to
the literal "Unnamed" with no buffer access; any other offset is resolved
relative to the position of the offset field itself. -/
def readNamed (buf : List Nat) (startof : Nat) (off : Int) : Option (List Nat) :=
  if off = RELOFFSET_NULL then some unnamedBytes
  else readStringRel buf ((startof : Int) + off)

/-- `seekToAlignment` (read-data.ts lines 29-33): pad the position to the
next multiple given by `alignmentMask`. The source computes
`-nCurPos & alignmentMask` with JavaScript's 32-bit two's-complement
bitwise arithmetic, modelled by the 2^32 complement. -/
def seekToAlignment (pos mask : Nat) : Nat :=
  pos + (((2 ^ 32 - pos % 2 ^ 32) % 2 ^ 32) &&& mask)

/-- One decoded DATA field value (read-data.ts lines 106-211). Floats keep
their raw little-endian bits (IEEE-754 decoding is the external encoding
package's concern); `ch` keeps the raw byte of `charsUtf8(1)`. -/
inductive DataValue where
  | uint (v : Nat)
  | int (v : Int)
  | ch (b : List Nat)
  | floatBits (v : Nat)
  | stringOff (mDataOffset : Nat)
  | hashedString (mDataOffset mHash : Nat)
  | objectRef (mDataOffset : Nat)
  | vector (mDataOffset mCount : Nat)
  | float2 (x y : Nat)
  | float3 (x y z : Nat)
  | float4 (x y z w : Nat)
  | tableSetRef (v : Nat)
  | resourceKey (inst type group : Nat)
  | locKey (k : Nat)
  | variantV (mDataOffset : Int) (mTypeHash : Nat)
deriving DecidableEq

/-- `readDataType` (read-data.ts lines 184-211) at an explicit position:
one value of the given type and the bytes consumed. Note the source reads
`Int8` with `decoder.uint8()` (sic) and reads a `ResourceKey` as instance,
then type, then group. `Undefined` throws. -/
def readDataType (buf : List Nat) (pos : Nat) :
    SimDataType → Option (DataValue × Nat)
  | .Boolean => (readUIntLE buf pos 1).map fun v => (.uint v, 1)
  | .UInt8 => (readUIntLE buf pos 1).map fun v => (.uint v, 1)
  | .Character => (readBytesAt buf pos 1).map fun b => (.ch b, 1)
  | .Int8 => (readUIntLE buf pos 1).map fun v => (.uint v, 1)
  | .Int16 => (readUIntLE buf pos 2).map fun v => (.int (toSigned v 16), 2)
  | .UInt16 => (readUIntLE buf pos 2).map fun v => (.uint v, 2)
  | .Int32 => (readUIntLE buf pos 4).map fun v => (.int (toSigned v 32), 4)
  | .UInt32 => (readUIntLE buf pos 4).map fun v => (.uint v, 4)
  | .Int64 => (readUIntLE buf pos 8).map fun v => (.int (toSigned v 64), 8)
  | .UInt64 => (readUIntLE buf pos 8).map fun v => (.uint v, 8)
  | .Float => (readUIntLE buf pos 4).map fun v => (.floatBits v, 4)
  | .String => (readUIntLE buf pos 4).map fun v => (.stringOff v, 4)
  | .HashedString =>
    (readUIntLE buf pos 4).bind fun d =>
    (readUIntLE buf (pos + 4) 4).map fun h => (.hashedString d h, 8)
  | .Object => (readUIntLE buf pos 4).map fun v => (.objectRef v, 4)
  | .Vector =>
    (readUIntLE buf pos 4).bind fun d =>
    (readUIntLE buf (pos + 4) 4).map fun c => (.vector d c, 8)
  | .Float2 =>
    (readUIntLE buf pos 4).bind fun x =>
    (readUIntLE buf (pos + 4) 4).map fun y => (.float2 x y, 8)
  | .Float3 =>
    (readUIntLE buf pos 4).bind fun x =>
    (readUIntLE buf (pos + 4) 4).bind fun y =>
    (readUIntLE buf (pos + 8) 4).map fun z => (.float3 x y z, 12)
  | .Float4 =>
    (readUIntLE buf pos 4).bind fun x =>
    (readUIntLE buf (pos + 4) 4).bind fun y =>
    (readUIntLE buf (pos + 8) 4).bind fun z =>
    (readUIntLE buf (pos + 12) 4).map fun w => (.float4 x y z w, 16)
  | .TableSetReference => (readUIntLE buf pos 8).map fun v => (.tableSetRef v, 8)
  | .ResourceKey =>
    (readUIntLE buf pos 8).bind fun i =>
    (readUIntLE buf (pos + 8) 4).bind fun t =>
    (readUIntLE buf (pos + 12) 4).map fun g => (.resourceKey i t g, 16)
  | .LocalizationKey => (readUIntLE buf pos 4).map fun v => (.locKey v, 4)
  | .Variant =>
    (readUIntLE buf pos 4).bind fun d =>
    (readUIntLE buf (pos + 4) 4).map fun h => (.variantV (toSigned d 32) h, 8)
  | .Undefined => none

/-- `TableInfo` as `structTableInfo` builds it (read-data.ts lines 43-55). -/
structure TableInfo where
  startof_mnNameOffset : Nat
  mnNameOffset : Int
  mnNameHash : Nat
  startof_mnSchemaOffset : Nat
  mnSchemaOffset : Int
  mnDataType : Nat
  mnRowSize : Nat
  mnRowOffset : Int
  mnRowCount : Nat
deriving DecidableEq

/-- `SchemaColumn` as `structSchemaColumn` builds it (read-data.ts lines
58-68). -/
structure SchemaColumn where
  startof_mnNameOffset : Nat
  mnNameOffset : Int
  mnNameHash : Nat
  mnDataType : Nat
  mnFlags : Nat
  mnOffset : Nat
  mnSchemaOffset : Int
deriving DecidableEq

/-- `Schema` as `structSchema` builds it (read-data.ts lines 73-99).
`mnNumColumns` is dropped: `structSchema` reads exactly that many columns
into `mColumn`, so in every decoded schema it equals `mColumn.length`. -/
structure Schema where
  startof_mnNameOffset : Nat
  mnNameOffset : Int
  mnNameHash : Nat
  mnSchemaHash : Nat
  mnSchemaSize : Nat
  startof_mnColumnOffset : Nat
  mnColumnOffset : Int
  mColumn : List SchemaColumn
deriving DecidableEq

/-- A decoded row: the column name (resolved through `readNamed`) with its
value, in schema column order (the source stores them in a JS object keyed
by name). -/
abbrev Row := List (List Nat × DataValue)

/-- `getSchemaIndex` (read-data.ts lines 266-274) combined with the
`mSchema[schemaIndex]` lookup: the schema whose own start position equals
the resolved schema offset; an unknown offset throws. -/
def findSchema (schemas : List Schema) (target : Int) : Option Schema :=
  schemas.find? fun s => (s.startof_mnNameOffset : Int) = target

/-- The column loop of `structRow` (read-data.ts lines 320-333): per column,
resolve the name, seek to `rowStart + column.offset`, read one value of the
column's type, then raise the running alignment to
`getAlignment(mTable[i].mnDataType)` - the alignment of the TABLE's declared
element type, not of the column's type (line 328). Returns the row and the
updated alignment. -/
def readColumns (buf : List Nat) (tableDataType : Nat) (rowStart : Nat) :
    List SchemaColumn → Nat → Option (Row × Nat)
  | [], a => some ([], a)
  | col :: rest, a =>
    (readNamed buf col.startof_mnNameOffset col.mnNameOffset).bind fun name =>
    (readDataType buf (rowStart + col.mnOffset)
        (SimDataType.ofCode col.mnDataType)).bind fun vc =>
    let ca := getAlignment (SimDataType.ofCode tableDataType)
    let a2 := if ca > a then ca else a
    (readColumns buf tableDataType rowStart rest a2).map fun rr =>
    ((name, vc.1) :: rr.1, rr.2)

/-- One schema-bound row of `structTableData` (read-data.ts lines 320-341):
remember `rowStart`, read the columns, restore the cursor to
`rowStart + schema.mnSchemaSize`, then align by the running alignment.
Returns the row, the position after the alignment seek, and the running
alignment. -/
def readSchemaRowStep (buf : List Nat) (tbl : TableInfo) (sch : Schema)
    (rowStart a : Nat) : Option (Row × Nat × Nat) :=
  (readColumns buf tbl.mnDataType rowStart sch.mColumn a).map fun ra =>
  (ra.1, seekToAlignment (rowStart + sch.mnSchemaSize) (ra.2 - 1), ra.2)

/-- The schema-bound row loop of `structTableData`: the schema is resolved
inside the loop per row (as `getSchemaIndex` is), and the running alignment
is threaded; it starts at 1 per table. Returns the rows and the position
after the final row's alignment seek. -/
def readSchemaRows (buf : List Nat) (tbl : TableInfo) (schemas : List Schema) :
    Nat → Nat → Nat → Option (List Row × Nat)
  | 0, pos, _ => some ([], pos)
  | n + 1, pos, a =>
    (findSchema schemas
        ((tbl.startof_mnSchemaOffset : Int) + tbl.mnSchemaOffset)).bind fun sch =>
    (readSchemaRowStep buf tbl sch pos a).bind fun rpa =>
    (readSchemaRows buf tbl schemas n rpa.2.1 rpa.2.2).map fun rs =>
    (rpa.1 :: rs.1, rs.2)

/-- The schema-less value loop of `structTableData` (read-data.ts lines
315-317 and 341): per row, one value of the table's declared type, then an
alignment seek by that type's alignment (the `alignment` variable is
assigned, not maxed, in this branch). -/
def readValueRows (buf : List Nat) (tbl : TableInfo) :
    Nat → Nat → Option (List DataValue × Nat)
  | 0, pos => some ([], pos)
  | n + 1, pos =>
    (readDataType buf pos (SimDataType.ofCode tbl.mnDataType)).bind fun vc =>
    let a := getAlignment (SimDataType.ofCode tbl.mnDataType)
    let p2 := seekToAlignment (pos + vc.2) (a - 1)
    (readValueRows buf tbl n p2).map fun vs => (vc.1 :: vs.1, vs.2)

/-- The decoded data of one table: a flat value list for a schema-less
table, rows for a schema-bound one. -/
inductive TableData where
  | values (vs : List DataValue)
  | rows (rs : List Row)
deriving DecidableEq

/-- `structTableData` for one table (read-data.ts lines 310-344): the
schema-less branch when the table's schema offset is the null sentinel,
else the schema-bound branch. Returns the table data and the final
position. -/
def structTableData (buf : List Nat) (tbl : TableInfo) (schemas : List Schema)
    (pos : Nat) : Option (TableData × Nat) :=
  if tbl.mnSchemaOffset = RELOFFSET_NULL then
    (readValueRows buf tbl tbl.mnRowCount pos).map fun vs =>
    (.values vs.1, vs.2)
  else
    (readSchemaRows buf tbl schemas tbl.mnRowCount pos 1).map fun rs =>
    (.rows rs.1, rs.2)

/-- The maximum alignment among a row's column data types, as the claim and
spec §4.3 state the per-row alignment ("the maximum alignment seen among
this row's column types"). This definition follows the spec's words, for
comparison with the source's behavior. -/
def rowMaxColumnAlignment (sch : Schema) : Nat :=
  sch.mColumn.foldl (fun a c => max a (getAlignment (SimDataType.ofCode c.mnDataType))) 1

end S4TK.Data

namespace S4TK.Stbl

/-! Embedding of `src/lib/resources/stringTable/serialization/writeStbl.ts`
and a model of the STBL decoder. Entries are `(key, string)` pairs with the
string kept as its UTF-8 bytes (`Buffer.byteLength` is then `List.length`). -/

/-- One STBL entry: uint32 key and the string's UTF-8 bytes. -/
abbrev KeyStringPair := Nat × List Nat

/-- The four magic bytes "STBL". -/
def stblMagic : List Nat := [83, 84, 66, 76]

/-- `n`-byte little-endian encoding of `v` (the value reduced mod 256^n),
the writer counterpart of `readUIntLE`. Node's `writeUIntLE` family
validates the range instead of wrapping; the theorems that depend on a
field's value carry the range as a hypothesis. -/
def encodeUIntLE : Nat → Nat → List Nat
  | _, 0 => []
  | v, n + 1 => v % 256 :: encodeUIntLE (v / 256) n

/-- The running `totalStringLength` of `writeStbl` (writeStbl.ts line 16):
each entry adds its string's byte length plus 1. -/
def stblTotalStringLength (entries : List KeyStringPair) : Nat :=
  entries.foldl (fun t e => t + (e.2.length + 1)) 0

/-- One serialized entry (writeStbl.ts lines 29-34): uint32 key, one
skipped (zero) byte, uint16 byte length, then the string's bytes. -/
def writeStblEntry (e : KeyStringPair) : List Nat :=
  encodeUIntLE e.1 4 ++ [0] ++ encodeUIntLE e.2.length 2 ++ e.2

/-- `writeStbl` (writeStbl.ts lines 9-37): the 21-byte header (magic,
uint16 version 5, one skipped byte, uint64 entry count, two skipped bytes,
uint32 total string length) followed by the entries. A skipped byte stays
0, as the output buffer is zero-allocated. -/
def writeStbl (entries : List KeyStringPair) : List Nat :=
  stblMagic ++ encodeUIntLE 5 2 ++ [0] ++ encodeUIntLE entries.length 8
    ++ [0, 0] ++ encodeUIntLE (stblTotalStringLength entries) 4
    ++ (entries.map writeStblEntry).flatten

/-- The entry loop of the STBL decoder: per entry a uint32 key, one skipped
byte, a uint16 length, then that many string bytes, length-prefixed with no
terminator. -/
def readStblEntries (buf : List Nat) : Nat → Nat → Option (List KeyStringPair)
  | 0, _ => some []
  | n + 1, pos =>
    (readUIntLE buf pos 4).bind fun key =>
    (readUIntLE buf (pos + 5) 2).bind fun len =>
    (readBytesAt buf (pos + 7) len).bind fun s =>
    (readStblEntries buf n (pos + 7 + len)).map fun rest => (key, s) :: rest

/-- Modelled from the spec: the STBL decoder (`readStbl`) is not among the
source files - only its writer, and the `StringTableResource.from` tests,
are. The layout follows spec §4.4: validate the 4-byte magic "STBL" and the
uint16 version 5, then (after the one-byte compressed flag) the uint64
entry count at offset 7, the 2 reserved bytes and the uint32 total string
length (both skipped), then the entries from offset 21. The recovery-mode
handling of the header follows the repository's own tests ("stbl header is
invalid": `StringTableResource.from` throws when `recoveryMode` is false
and does not throw when it is true), which contradict the spec's sentence
that STBL header corruption is fatal regardless of mode: under recovery
mode the magic and version are skipped without validation, while a
malformed entry region still fails in both modes (the "stbl content is
invalid" tests). -/
def readStbl (buf : List Nat) (recoveryMode : Bool) :
    Option (List KeyStringPair) :=
  (if recoveryMode then some () else
    (readBytesAt buf 0 4).bind fun magic =>
    if magic = stblMagic then
      (readUIntLE buf 4 2).bind fun ver =>
      if ver = 5 then some () else none
    else none).bind fun _ =>
  (readUIntLE buf 7 8).bind fun count =>
  readStblEntries buf count 21

end S4TK.Stbl

namespace S4TK.Cells

/-! Embedding of `MultiValueCell` (the SimData cell classes, source part
numbered 000, lines 63-144). Cells are heap objects whose `owner` field is
mutated in place; here a cell is a record carrying its `owner` (the owning
cell's identity, if any) and an opaque payload standing for the rest of its
data, and each mutation produces the updated record. -/

/-- A child cell as seen by its container: its recorded owner and its
data. -/
structure CellRef where
  owner : Option Nat
  payload : Nat
deriving DecidableEq

/-- A multi-value cell (`ObjectCell`/`VectorCell`): its own identity and
its `values` array. -/
structure MultiValueCell where
  id : Nat
  values : List CellRef
deriving DecidableEq

namespace MultiValueCell

/-- `addValues` (lines 94-101): each added cell's owner is set to this
cell, then it is pushed onto `values`. -/
def addValues (c : MultiValueCell) (vs : List CellRef) : MultiValueCell :=
  { c with values := c.values ++ vs.map fun v => { v with owner := some c.id } }

/-- `Cell.clone`: a deep copy "retaining all information except for the
owner". -/
def cloneCell (v : CellRef) : CellRef := { v with owner := none }

/-- `addValueClones` (lines 109-112): clone each cell, then `addValues`. -/
def addValueClones (c : MultiValueCell) (vs : List CellRef) : MultiValueCell :=
  addValues c (vs.map cloneCell)

/-- `removeValues` (lines 120-122): remove the given cells (by identity,
`removeFromArray`) from `values`. -/
def removeValues (c : MultiValueCell) (vs : List CellRef) : MultiValueCell :=
  { c with values := c.values.filter fun v => !(vs.contains v) }

/-- `setValue` (lines 130-133): `this.values[index] = value` - the incoming
value's owner is NOT updated. -/
def setValue (c : MultiValueCell) (i : Nat) (v : CellRef) : MultiValueCell :=
  { c with values := c.values.set i v }

/-- The ownership invariant: every cell in `values` records this cell as
its owner. -/
def ownerInvariant (c : MultiValueCell) : Prop :=
  ∀ v ∈ c.values, v.owner = some c.id

instance (c : MultiValueCell) : Decidable c.ownerInvariant :=
  inferInstanceAs (Decidable (∀ v ∈ c.values, v.owner = some c.id))

/-- The cache half of `validate` (lines 135-143) with `ignoreCache` false:
`true` iff no child raises "Cache Problem: Child cell has another owner". -/
def validateCacheCheck (c : MultiValueCell) : Bool :=
  c.values.all fun v => v.owner == some c.id

end MultiValueCell

end S4TK.Cells

namespace S4TK.Raw

/-! Embedding of `RawResource` (source part numbered 003) over its base
`WritableModel` (`src/lib/base/writable-model.ts`). The external
compression primitive is a parameter (`decompress`/`compress`), per the
spec's §6 contract. Compression types are the external package's numeric
codes; 0 is `CompressionType.Uncompressed`. -/

/-- `CompressedBuffer` of `@s4tk/compression`: bytes, their compression
type code, and the decompressed size. -/
structure CompressedBuffer where
  buffer : List Nat
  compressionType : Nat
  sizeDecompressed : Nat
deriving DecidableEq

/-- `CompressionType.Uncompressed`. -/
def uncompressedCT : Nat := 0

/-- The state of a `RawResource`: its `_bufferCache` and
`_defaultCompressionType`. -/
structure RawResourceState where
  bufferCache : Option CompressedBuffer
  defaultCompressionType : Nat
deriving DecidableEq

/-- The `RawResource` constructor (part 003 lines 34-41): the wrapper is
always installed as the initial buffer cache (`initialBufferCache` with
`saveBuffer: true`; `RawResourceCreationOptions` cannot override either). -/
def createRawResource (wrapper : CompressedBuffer) (defCT : Nat) :
    RawResourceState :=
  ⟨some wrapper, defCT⟩

/-- `WritableModel.getBuffer` as it runs on a `RawResource` (writable-model
lines 92-117): an uncompressed cache is returned as is; a compressed cache
is decompressed (and cached uncompressed when `cache` is set); with no
cache, `_serialize` runs - which for `RawResource` (part 003 lines 91-93)
throws, hence `none`. Returns the bytes and the resulting state. -/
def getBuffer (decompress : List Nat → Nat → List Nat) (s : RawResourceState)
    (cache : Bool) : Option (List Nat × RawResourceState) :=
  match s.bufferCache with
  | some w =>
    if w.compressionType = uncompressedCT then some (w.buffer, s)
    else
      let d := decompress w.buffer w.compressionType
      some (d, if cache then
        { s with bufferCache := some ⟨d, uncompressedCT, d.length⟩ } else s)
  | none => none

/-- `WritableModel.getCompressedBuffer` as it runs on a `RawResource`
(writable-model lines 146-174): a cache already in the target compression
is returned; otherwise the cache is decompressed (with no cache,
`_serialize` would throw: `none`), recompressed to the target, and cached
when `cache` is set. -/
def getCompressedBuffer (decompress compress : List Nat → Nat → List Nat)
    (s : RawResourceState) (target : Option Nat) (cache : Bool) :
    Option (CompressedBuffer × RawResourceState) :=
  let t := target.getD s.defaultCompressionType
  match s.bufferCache with
  | some w =>
    if w.compressionType = t then some (w, s)
    else
      let d := decompress w.buffer w.compressionType
      let wrapper : CompressedBuffer := ⟨compress d t, t, d.length⟩
      some (wrapper, if cache then { s with bufferCache := some wrapper } else s)
  | none => none

/-- The `defaultCompressionType` setter (writable-model lines 54-60): when a
cache of a different type is present it calls
`_clearBufferCacheIfSupported`, which `RawResource` overrides to a no-op
(part 003 lines 87-89); then the default type is set. -/
def setDefaultCompressionType (s : RawResourceState) (v : Nat) :
    RawResourceState :=
  { s with defaultCompressionType := v }

/-- `RawResource.onChange` (part 003 lines 79-81): intentionally blank - it
does not clear the cache, unlike `WritableModel.onChange`. -/
def onChange (s : RawResourceState) : RawResourceState := s

/-- The cache-affecting operations callable on a `RawResource`. -/
inductive RawOp where
  | onChangeOp
  | setDefaultCT (v : Nat)
  | getBufferOp (cache : Bool)
  | getCompressedBufferOp (target : Option Nat) (cache : Bool)

/-- The state after one operation (a failed operation leaves the state). -/
def applyOp (decompress compress : List Nat → Nat → List Nat)
    (s : RawResourceState) : RawOp → RawResourceState
  | .onChangeOp => onChange s
  | .setDefaultCT v => setDefaultCompressionType s v
  | .getBufferOp c =>
    match getBuffer decompress s c with
    | some r => r.2
    | none => s
  | .getCompressedBufferOp t c =>
    match getCompressedBuffer decompress compress s t c with
    | some r => r.2
    | none => s

/-- The state after a sequence of operations. -/
def applyOps (decompress compress : List Nat → Nat → List Nat)
    (s : RawResourceState) (ops : List RawOp) : RawResourceState :=
  ops.foldl (applyOp decompress compress) s

end S4TK.Raw

namespace S4TK

/-! Concrete inputs used by witnesses and counterexamples. -/

/-- A well-formed one-resource DBPF: valid header, index at 96, no constant
flags, one uncompressed index entry whose 5-byte payload sits at 132. -/
def demoDbpf : List Nat :=
  [68, 66, 80, 70] ++ [2, 0, 0, 0] ++ [1, 0, 0, 0]
    ++ List.replicate 24 0
    ++ [1, 0, 0, 0]
    ++ [96, 0, 0, 0]
    ++ List.replicate 16 0
    ++ [3, 0, 0, 0]
    ++ List.replicate 8 0
    ++ List.replicate 24 0
    ++ [0, 0, 0, 0]
    ++ [17, 0, 0, 0] ++ [34, 0, 0, 0] ++ [0, 0, 0, 0] ++ [51, 0, 0, 0]
    ++ [132, 0, 0, 0]
    ++ [5, 0, 0, 0]
    ++ [5, 0, 0, 0]
    ++ [0, 0]
    ++ [0, 0]
    ++ [1, 2, 3, 4, 5]

/-- What decoding `demoDbpf` yields: one uncompressed entry with key
`(17, 34, 51)` and payload `[1, 2, 3, 4, 5]`. -/
def demoDbpfDecoded : List Dbpf.DecodedEntry :=
  [⟨⟨17, 34, 51⟩, ⟨⟨17, 34, 51⟩, 132, 5, 5, none⟩, [1, 2, 3, 4, 5]⟩]

/-- A 100-byte buffer with no DBPF magic whose index-position-low field (at
offset 40) points at 96 and whose entry count is 0: in recovery mode the
in-memory decoder accepts it, while the streaming variant still validates
the header. -/
def c1bad : List Nat := List.replicate 40 0 ++ [96, 0, 0, 0] ++ List.replicate 56 0

/-- One 32-byte index entry (no constant flags): key `(1, 2, 3)`, position
word 0, size word `0x80000005` (compressed, size 5), decompressed size 9,
compression type `0x5A42`. -/
def c5buf : List Nat :=
  [1, 0, 0, 0] ++ [2, 0, 0, 0] ++ [0, 0, 0, 0] ++ [3, 0, 0, 0]
    ++ [0, 0, 0, 0] ++ [5, 0, 0, 128] ++ [9, 0, 0, 0] ++ [66, 90] ++ [0, 0]

/-- Twelve zero bytes: one schema-bound row for `c2sch`. -/
def c2buf : List Nat := List.replicate 12 0

/-- A schema column of type Int64 (code 8) at row offset 0, name the null
sentinel. -/
def c2col : Data.SchemaColumn := ⟨0, Data.RELOFFSET_NULL, 0, 8, 0, 0, 0⟩

/-- A schema at position 10 of size 12 with the single Int64 column. -/
def c2sch : Data.Schema := ⟨10, Data.RELOFFSET_NULL, 0, 0, 12, 0, 0, [c2col]⟩

/-- A schema-bound table of declared element type Boolean (code 0, alignment
1) with one row; its schema offset resolves to position 10 = 100 - 90. -/
def c2tbl : Data.TableInfo := ⟨0, Data.RELOFFSET_NULL, 0, 100, -90, 0, 12, 0, 1⟩

/-- A 21-byte STBL whose magic is "XXXX" instead of "STBL", version 5 and
entry count 0: everything but the magic is well formed. -/
def c6buf : List Nat :=
  [88, 88, 88, 88, 5, 0, 0] ++ List.replicate 8 0 ++ [0, 0] ++ [0, 0, 0, 0]

/-- A multi-value cell with identity 0 whose one child is correctly
owned. -/
def c9cell : Cells.MultiValueCell := ⟨0, [⟨some 0, 1⟩]⟩

/-- A cell with no owner, to be passed to `setValue`. -/
def c9v : Cells.CellRef := ⟨none, 2⟩

/-- A compressed wrapper (compression type 0x5A42, not uncompressed). -/
def c10wrapper : Raw.CompressedBuffer := ⟨[1, 2, 3], 23106, 3⟩

/-- A decompressor instance for the external black-box primitive of spec §6
(`decompress(bytes, compressionType) -> bytes`). -/
def c10decompress : List Nat → Nat → List Nat := fun _ _ => [9]

end S4TK

namespace S4TK.Data

/-! ## C3: the per-type byte width and alignment table -/

/-- C3, counterexample: the claim says `getBytes`/`getAlignment` match the
spec's table with Float4 and ResourceKey both 16 bytes and alignment 8, but
the source's `getAlignment` returns 4 for Float4 (data-types.ts line 97),
not the 8 of the spec's table row. -/
theorem c3_counterexample :
    specTypeTable SimDataType.Float4 = some (16, 8) ∧
    getBytes SimDataType.Float4 = some 16 ∧
    getAlignment SimDataType.Float4 = 4 ∧ (4 : Nat) ≠ 8 := by decide

/-- C3, amended: for every SimData data type with a row in the spec's table,
`getBytes` and `getAlignment` return exactly the table's values, except that
Float4's alignment is 4 (not 8); in particular Float4 and ResourceKey both
occupy 16 bytes, ResourceKey has alignment 8, and Float4 has alignment 4. -/
theorem c3_type_table_amended (t : SimDataType) (b a : Nat)
    (h : amendedTypeTable t = some (b, a)) :
    getBytes t = some b ∧ getAlignment t = a := by
  cases t <;>
    simp only [amendedTypeTable, specTypeTable, Option.some.injEq, Prod.mk.injEq,
      reduceCtorEq, getBytes, getAlignment] at h ⊢ <;>
    omega

/-- C3, witness: the amended table at ResourceKey. -/
theorem c3_witness : getBytes SimDataType.ResourceKey = some 16 ∧
    getAlignment SimDataType.ResourceKey = 8 :=
  c3_type_table_amended SimDataType.ResourceKey 16 8 (by decide)

/-! ## C8: null-sentinel name resolution -/

/-- C8: during tabular decoding a name offset equal to the null sentinel
`-0x80000000` resolves to the literal "Unnamed" with no seek (the result
does not depend on the buffer at all), and any other offset resolves to the
null-terminated string at (position of the offset field + relative
offset). -/
theorem c8_name_resolution (buf buf2 : List Nat) (startof : Nat) (off : Int) :
    readNamed buf startof RELOFFSET_NULL = some unnamedBytes ∧
    readNamed buf startof RELOFFSET_NULL = readNamed buf2 startof RELOFFSET_NULL ∧
    (off ≠ RELOFFSET_NULL →
      readNamed buf startof off = readStringRel buf ((startof : Int) + off)) := by
  refine ⟨by simp [readNamed], by simp [readNamed], fun h => ?_⟩
  rw [readNamed, if_neg h]

/-- C8, witness: the sentinel at a concrete buffer and field position, and a
non-sentinel offset resolving through the string heap. -/
theorem c8_witness :
    readNamed [65, 0, 66, 0] 1 RELOFFSET_NULL = some unnamedBytes ∧
    readNamed [65, 0, 66, 0] 1 RELOFFSET_NULL
      = readNamed [7, 7, 7] 1 RELOFFSET_NULL ∧
    ((1 : Int) ≠ RELOFFSET_NULL →
      readNamed [65, 0, 66, 0] 1 1 = readStringRel [65, 0, 66, 0] ((1 : Int) + 1)) :=
  c8_name_resolution [65, 0, 66, 0] [7, 7, 7] 1 1

end S4TK.Data

namespace S4TK.Stbl

/-! ## C6: STBL header corruption vs recovery mode -/

/-- C6, counterexample: the claim says an STBL with a corrupt header fails
regardless of options, but on a buffer whose magic is "XXXX" (all other
header fields well formed) the decode succeeds under recovery mode - the
repository's own tests assert `StringTableResource.from` does not throw on
a corrupt header when `recoveryMode` is true. -/
theorem c6_counterexample :
    readStbl c6buf true = some [] ∧ readStbl c6buf false = none := by decide

/-- C6, amended: STBL header corruption (bad magic or bad version) is fatal
exactly when recovery mode is off; with `recoveryMode` the header
validation is skipped, so decoding can succeed despite a corrupt header. -/
theorem c6_header_fatal_without_recovery (buf : List Nat)
    (h : ¬(readBytesAt buf 0 4 = some stblMagic ∧ readUIntLE buf 4 2 = some 5)) :
    readStbl buf false = none := by
  rw [readStbl]
  cases hm : readBytesAt buf 0 4 with
  | none => rfl
  | some m =>
    by_cases hmm : m = stblMagic
    · subst hmm
      cases hv : readUIntLE buf 4 2 with
      | none => simp [hm, hv]
      | some v =>
        by_cases hv5 : v = 5
        · exact absurd ⟨hm, hv5 ▸ hv⟩ h
        · simp [hm, hv, hv5]
    · simp [hm, hmm]

/-- C6, witness: the amended statement at the concrete corrupt-magic
buffer. -/
theorem c6_witness : readStbl c6buf false = none :=
  c6_header_fatal_without_recovery c6buf (by decide)

end S4TK.Stbl

namespace S4TK.Cells

open MultiValueCell

/-- The cache half of `validate` succeeds exactly when the ownership
invariant holds. -/
theorem validateCacheCheck_iff (c : MultiValueCell) :
    c.validateCacheCheck = true ↔ c.ownerInvariant := by
  unfold validateCacheCheck ownerInvariant
  rw [List.all_eq_true]
  constructor
  · intro h v hv
    exact beq_iff_eq.mp (h v hv)
  · intro h v hv
    exact beq_iff_eq.mpr (h v hv)

/-- C9, counterexample: the claim says all four mutators preserve the
child-owner invariant, but `setValue` stores the incoming cell without
updating its owner (part 000 lines 130-133), so on a cell satisfying the
invariant, `setValue` with an unowned cell breaks it and the subsequent
`validate` cache check fails (it would throw "Cache Problem: Child cell has
another owner"). -/
theorem c9_counterexample :
    c9cell.ownerInvariant ∧
    ¬(c9cell.setValue 0 c9v).ownerInvariant ∧
    (c9cell.setValue 0 c9v).validateCacheCheck = false := by decide

/-- C9, amended: on a multi-value cell satisfying the child-owner invariant,
`addValues`, `addValueClones` and `removeValues` preserve it (so `validate`
with cache checking cannot raise the child-owner error), while `setValue`
preserves it only when the incoming value's owner already equals the cell -
it stores the value without re-owning it. -/
theorem c9_mutators_preserve_ownership (c : MultiValueCell) (vs : List CellRef)
    (h : c.ownerInvariant) :
    (c.addValues vs).ownerInvariant ∧
    (c.addValueClones vs).ownerInvariant ∧
    (c.removeValues vs).ownerInvariant ∧
    (c.addValues vs).validateCacheCheck = true ∧
    (c.addValueClones vs).validateCacheCheck = true ∧
    (c.removeValues vs).validateCacheCheck = true ∧
    (∀ i v, v.owner = some c.id → (c.setValue i v).ownerInvariant) := by
  have hadd : ∀ ws, (c.addValues ws).ownerInvariant := by
    intro ws v hv
    rw [addValues] at hv
    simp only [List.mem_append, List.mem_map] at hv
    rcases hv with hv | ⟨w, _, rfl⟩
    · exact h v hv
    · rfl
  have hrem : (c.removeValues vs).ownerInvariant := by
    intro v hv
    rw [removeValues] at hv
    exact h v (List.mem_of_mem_filter hv)
  refine ⟨hadd vs, hadd _, hrem, ?_, ?_, ?_, ?_⟩
  · exact (validateCacheCheck_iff _).mpr (hadd vs)
  · exact (validateCacheCheck_iff _).mpr (hadd _)
  · exact (validateCacheCheck_iff _).mpr hrem
  · intro i v hv w hw
    rw [setValue] at hw
    rcases List.mem_or_eq_of_mem_set hw with hw | rfl
    · exact h w hw
    · exact hv

/-- C9, witness: the amended statement at a concrete owned cell and a
concrete addition. -/
theorem c9_witness :
    (c9cell.addValues [⟨some 5, 9⟩]).ownerInvariant ∧
    (c9cell.addValueClones [⟨some 5, 9⟩]).ownerInvariant ∧
    (c9cell.removeValues [⟨some 5, 9⟩]).ownerInvariant ∧
    (c9cell.addValues [⟨some 5, 9⟩]).validateCacheCheck = true ∧
    (c9cell.addValueClones [⟨some 5, 9⟩]).validateCacheCheck = true ∧
    (c9cell.removeValues [⟨some 5, 9⟩]).validateCacheCheck = true ∧
    (∀ i v, v.owner = some c9cell.id → (c9cell.setValue i v).ownerInvariant) :=
  c9_mutators_preserve_ownership c9cell [⟨some 5, 9⟩] (by decide)

end S4TK.Cells

namespace S4TK.Raw

/-- One operation cannot remove the buffer cache of a `RawResource`:
`onChange` and `_clearBufferCacheIfSupported` are no-ops, and the getters
only ever overwrite the cache with another wrapper. -/
theorem applyOp_preserves_cache (decompress compress : List Nat → Nat → List Nat)
    (s : RawResourceState) (op : RawOp) (h : s.bufferCache.isSome = true) :
    (applyOp decompress compress s op).bufferCache.isSome = true := by
  rcases s with ⟨cache, d⟩
  cases cache with
  | none => simp at h
  | some w =>
    cases op with
    | onChangeOp => exact h
    | setDefaultCT v => exact h
    | getBufferOp c =>
      simp only [applyOp, getBuffer]
      by_cases hu : w.compressionType = uncompressedCT <;> simp [hu] <;>
        cases c <;> simp
    | getCompressedBufferOp t c =>
      simp only [applyOp, getCompressedBuffer]
      by_cases hu : w.compressionType = (t.getD d) <;> simp [hu] <;>
        cases c <;> simp

/-- No operation sequence removes the cache. -/
theorem applyOps_preserves_cache (decompress compress : List Nat → Nat → List Nat)
    (ops : List RawOp) :
    ∀ s : RawResourceState, s.bufferCache.isSome = true →
    (applyOps decompress compress s ops).bufferCache.isSome = true := by
  induction ops with
  | nil => exact fun s h => h
  | cons op rest ih =>
    intro s h
    exact ih _ (applyOp_preserves_cache decompress compress s op h)

/-- C10, amended: a `RawResource` is constructed with a buffer cache, and
`onChange` / `_clearBufferCacheIfSupported` being no-ops, no sequence of
cache-affecting operations removes it, so `getBuffer` never reaches the
throwing `_serialize` branch; `getBuffer` returns the originally supplied
bytes when the supplied wrapper is uncompressed (when it is compressed, the
claim fails: `getBuffer` returns the wrapper's decompression instead, see
the counterexample). -/
theorem c10_cache_permanence (decompress compress : List Nat → Nat → List Nat)
    (wrapper : CompressedBuffer) (defCT : Nat) (ops : List RawOp) :
    (applyOps decompress compress (createRawResource wrapper defCT)
        ops).bufferCache.isSome = true ∧
    (∀ c, getBuffer decompress
        (applyOps decompress compress (createRawResource wrapper defCT) ops) c
        ≠ none) ∧
    (wrapper.compressionType = uncompressedCT → ∀ c,
      (getBuffer decompress (createRawResource wrapper defCT) c).map Prod.fst
        = some wrapper.buffer) := by
  have hsome : (applyOps decompress compress (createRawResource wrapper defCT)
      ops).bufferCache.isSome = true :=
    applyOps_preserves_cache decompress compress ops _ rfl
  refine ⟨hsome, fun c => ?_, fun hu c => ?_⟩
  · rcases hw : (applyOps decompress compress (createRawResource wrapper defCT)
        ops).bufferCache with _ | w
    · rw [hw] at hsome; simp at hsome
    · rw [getBuffer, hw]
      by_cases hu : w.compressionType = uncompressedCT <;> simp [hu]
  · rw [getBuffer]
    show (match some wrapper with
      | some w => _
      | none => none).map Prod.fst = some wrapper.buffer
    simp [hu]

/-- C10, counterexample: the claim says `getBuffer` always returns the
originally supplied bytes, but a `RawResource` built from a compressed
wrapper (as `readDbpf` does when the payload is compressed and
`decompressBuffers` is unset) returns the decompression of those bytes:
with the black-box decompressor `c10decompress`, the supplied bytes
`[1, 2, 3]` come back as `[9]`. -/
theorem c10_counterexample :
    (getBuffer c10decompress (createRawResource c10wrapper 23106) false).map
      Prod.fst = some [9] ∧
    some [9] ≠ some ([1, 2, 3] : List Nat) ∧
    c10wrapper.buffer = [1, 2, 3] := by decide

end S4TK.Raw

namespace S4TK.Data

/-- The branchless form of "raise `a` to `ca` when larger". -/
theorem ite_gt_eq_max (a ca : Nat) : (if ca > a then ca else a) = max a ca := by
  rcases Nat.lt_or_ge a ca with h | h
  · rw [if_pos h, Nat.max_eq_right (Nat.le_of_lt h)]
  · rw [if_neg (Nat.not_lt.mpr h), Nat.max_eq_left h]

/-- The alignment that the column loop leaves behind: over a non-empty
column list it is the incoming alignment raised to the alignment of the
TABLE's declared element type, whatever the columns' own types are
(read-data.ts line 328 computes `getAlignment(mTable[i].mnDataType)` for
every column). -/
theorem readColumns_alignment (buf : List Nat) (tdt rowStart : Nat) :
    ∀ (cols : List SchemaColumn) (a : Nat) (row : Row) (a2 : Nat),
    readColumns buf tdt rowStart cols a = some (row, a2) →
    a2 = if cols = [] then a
         else max a (getAlignment (SimDataType.ofCode tdt)) := by
  intro cols
  induction cols with
  | nil =>
    intro a row a2 h
    rw [readColumns] at h
    injection h with h2
    injection h2 with _ h3
    simp [h3]
  | cons col rest ih =>
    intro a row a2 h
    rw [readColumns] at h
    cases hn : readNamed buf col.startof_mnNameOffset col.mnNameOffset with
    | none => rw [hn] at h; exact absurd h (by simp)
    | some name =>
      rw [hn] at h
      simp only [Option.some_bind] at h
      cases hv : readDataType buf (rowStart + col.mnOffset)
          (SimDataType.ofCode col.mnDataType) with
      | none => rw [hv] at h; exact absurd h (by simp)
      | some vc =>
        rw [hv] at h
        simp only [Option.some_bind] at h
        cases hr : readColumns buf tdt rowStart rest
            (if getAlignment (SimDataType.ofCode tdt) > a then
              getAlignment (SimDataType.ofCode tdt) else a) with
        | none => rw [hr] at h; exact absurd h (by simp)
        | some rr =>
          rw [hr] at h
          simp only [Option.map_some, Option.map_some', Option.some.injEq] at h
          have ha2 : a2 = rr.2 := by
            have := congrArg Prod.snd h
            simpa using this.symm
          have hrec := ih _ rr.1 rr.2 (by rw [hr])
          subst ha2
          rw [ite_gt_eq_max] at hrec
          simp only [reduceCtorEq, if_false]
          rcases eq_or_ne rest [] with hrest | hrest
          · rw [if_pos hrest] at hrec
            omega
          · rw [if_neg hrest] at hrec
            omega

/-- C2, amended: after a schema-bound row is read, the cursor is restored
to `rowStart + schema.totalSize` and then aligned - but by the alignment of
the TABLE's declared element type (raised over the alignment carried in
from earlier rows of the same table, which starts at 1), not by the maximum
alignment among the row's column data types; for schema-less tables the
alignment used is likewise that of the table's declared element type. -/
theorem c2_row_realignment (buf : List Nat) (tbl : TableInfo) (sch : Schema)
    (rowStart a : Nat) (row : Row) (p2 a2 : Nat)
    (h : readSchemaRowStep buf tbl sch rowStart a = some (row, p2, a2)) :
    p2 = seekToAlignment (rowStart + sch.mnSchemaSize) (a2 - 1) ∧
    a2 = (if sch.mColumn = [] then a
          else max a (getAlignment (SimDataType.ofCode tbl.mnDataType))) := by
  rw [readSchemaRowStep] at h
  cases hc : readColumns buf tbl.mnDataType rowStart sch.mColumn a with
  | none => rw [hc] at h; exact absurd h (by simp)
  | some ra =>
    rw [hc] at h
    simp only [Option.map_some, Option.map_some', Option.some.injEq] at h
    have hp : p2 = seekToAlignment (rowStart + sch.mnSchemaSize) (ra.2 - 1) := by
      have := congrArg (fun x => x.2.1) h
      simpa using this.symm
    have ha : a2 = ra.2 := by
      have := congrArg (fun x => x.2.2) h
      simpa using this.symm
    subst ha
    exact ⟨hp, readColumns_alignment buf tbl.mnDataType rowStart sch.mColumn
      a ra.1 ra.2 hc⟩

/-- C2, witness: the amended statement at the concrete one-row table. -/
theorem c2_witness :
    (12 : Nat) = seekToAlignment (0 + S4TK.c2sch.mnSchemaSize) (1 - 1) ∧
    (1 : Nat) = (if S4TK.c2sch.mColumn = [] then 1
      else max 1 (getAlignment (SimDataType.ofCode S4TK.c2tbl.mnDataType))) :=
  c2_row_realignment S4TK.c2buf S4TK.c2tbl S4TK.c2sch 0 1
    [(unnamedBytes, DataValue.int 0)] 12 1 (by decide)

/-- C2, counterexample: the claim predicts the next-row cursor is aligned
to the maximum alignment among the row's column types. On a one-row
schema-bound table whose schema has a single Int64 column (alignment 8) but
whose declared element type is Boolean (alignment 1), the decoder leaves
the cursor at 12 = rowStart + schema size, while the claim's alignment
rule demands 16. -/
theorem c2_counterexample :
    structTableData S4TK.c2buf S4TK.c2tbl [S4TK.c2sch] 0
      = some (TableData.rows [[(unnamedBytes, DataValue.int 0)]], 12) ∧
    rowMaxColumnAlignment S4TK.c2sch = 8 ∧
    seekToAlignment (0 + S4TK.c2sch.mnSchemaSize)
      (rowMaxColumnAlignment S4TK.c2sch - 1) = 16 ∧
    (12 : Nat) ≠ 16 := by decide

end S4TK.Data

namespace S4TK.Stbl

/-- An `n`-byte encoding is `n` bytes long. -/
theorem encodeUIntLE_length (n : Nat) : ∀ v, (encodeUIntLE v n).length = n := by
  induction n with
  | zero => intro v; rfl
  | succ m ih => intro v; simp [encodeUIntLE, ih]

/-- Writing then reading a little-endian value yields the value mod
`256 ^ n`. -/
theorem leVal_encodeUIntLE (n : Nat) : ∀ v, leVal (encodeUIntLE v n) = v % 256 ^ n := by
  induction n with
  | zero => intro v; simp [encodeUIntLE, leVal, Nat.mod_one]
  | succ m ih =>
    intro v
    rw [encodeUIntLE, leVal, ih (v / 256), Nat.mod_mod_of_dvd v (by norm_num),
      pow_succ, mul_comm (256 ^ m) 256, Nat.mod_mul]

/-- One serialized STBL entry is `string bytes + 7` long. -/
theorem writeStblEntry_length (e : KeyStringPair) :
    (writeStblEntry e).length = e.2.length + 7 := by
  simp [writeStblEntry, encodeUIntLE_length]
  omega

end S4TK.Stbl

namespace S4TK.Stbl

/-- Reading `n` bytes right after a prefix of length exactly `n` worth of
`ys` yields `ys`. -/
theorem readUIntLE_append_exact (xs ys zs : List Nat) (n : Nat)
    (hy : ys.length = n) :
    readUIntLE (xs ++ (ys ++ zs)) xs.length n = some (leVal ys) := by
  unfold readUIntLE readBytesAt
  rw [if_pos, List.drop_left, ← hy, List.take_left]
  · simp
  · simp only [List.length_append]
    omega

/-- C7: for every entry list, the STBL writer's buffer is exactly
`21 + Σ (string byte length + 7)` bytes long, and (whenever it fits the
32-bit field, which Node's buffer write would otherwise reject) the
header's total-string-length field at offset 17 holds
`Σ (string byte length + 1)`. -/
theorem c7_writeStbl_sizes (entries : List KeyStringPair)
    (h : stblTotalStringLength entries < 2 ^ 32) :
    (writeStbl entries).length
      = 21 + (entries.map fun e => e.2.length + 7).sum ∧
    readUIntLE (writeStbl entries) 17 4
      = some (stblTotalStringLength entries) := by
  have hmap : (entries.map writeStblEntry).map List.length
      = entries.map fun e => e.2.length + 7 := by
    rw [List.map_map]
    simp only [Function.comp_def, writeStblEntry_length]
  constructor
  · simp only [writeStbl, stblMagic, List.length_append, encodeUIntLE_length,
      List.length_flatten, hmap, List.length_cons, List.length_nil]
  · have hsplit : writeStbl entries
        = (stblMagic ++ encodeUIntLE 5 2 ++ [0]
            ++ encodeUIntLE entries.length 8 ++ [0, 0])
          ++ (encodeUIntLE (stblTotalStringLength entries) 4
            ++ (entries.map writeStblEntry).flatten) := by
      simp [writeStbl, List.append_assoc]
    have hlen : (stblMagic ++ encodeUIntLE 5 2 ++ [0]
        ++ encodeUIntLE entries.length 8 ++ [0, 0]).length = 17 := by
      simp [stblMagic, List.length_append, encodeUIntLE_length]
    rw [hsplit, show (17 : Nat) = (stblMagic ++ encodeUIntLE 5 2 ++ [0]
        ++ encodeUIntLE entries.length 8 ++ [0, 0]).length from hlen.symm,
      readUIntLE_append_exact _ _ _ 4 (encodeUIntLE_length 4 _),
      leVal_encodeUIntLE]
    rw [Nat.mod_eq_of_lt (by norm_num at h ⊢; omega)]

/-- C7, witness: the sizes at the concrete one-entry table
`[(1, "hi")]`. -/
theorem c7_witness :
    (writeStbl [(1, [104, 105])]).length
      = 21 + ([((1 : Nat), [104, 105])].map fun e => e.2.length + 7).sum ∧
    readUIntLE (writeStbl [(1, [104, 105])]) 17 4
      = some (stblTotalStringLength [(1, [104, 105])]) :=
  c7_writeStbl_sizes [(1, [104, 105])] (by decide)

end S4TK.Stbl

namespace S4TK

/-- A little-endian value fits in as many bytes as it was read from. -/
theorem leVal_lt (bs : List Nat) : leVal bs < 256 ^ bs.length := by
  induction bs with
  | nil => simp [leVal]
  | cons b rest ih =>
    rw [leVal, List.length_cons, pow_succ, mul_comm (256 ^ rest.length) 256]
    have hb : b % 256 < 256 := Nat.mod_lt b (by norm_num)
    calc b % 256 + 256 * leVal rest
        < 256 + 256 * leVal rest := by omega
      _ ≤ 256 * (leVal rest + 1) := by ring_nf; omega
      _ ≤ 256 * 256 ^ rest.length := Nat.mul_le_mul_left 256 ih

/-- A successful `readUIntLE` of `n` bytes is below `256 ^ n`. -/
theorem readUIntLE_lt (buf : List Nat) (pos n v : Nat)
    (h : readUIntLE buf pos n = some v) : v < 256 ^ n := by
  unfold readUIntLE readBytesAt at h
  by_cases hc : pos + n ≤ buf.length
  · rw [if_pos hc] at h
    simp only [Option.map_some, Option.map_some', Option.some.injEq] at h
    have hlen : ((buf.drop pos).take n).length = n := by
      simp only [List.length_take, List.length_drop]
      omega
    have := leVal_lt ((buf.drop pos).take n)
    rw [hlen] at this
    omega
  · rw [if_neg hc] at h
    simp at h

end S4TK

namespace S4TK.Dbpf

/-- The bytes the key part of an index entry occupies, determined by the
flags alone: 4 per non-constant field among type/group/instanceEx, plus 4
for the instance-low word. -/
def keyFieldsLen (flags : DbpfFlags) : Nat :=
  (if flags.constantTypeId.isSome then 0 else 4)
    + (if flags.constantGroupId.isSome then 0 else 4)
    + (if flags.constantInstanceIdEx.isSome then 0 else 4) + 4

/-- A key field consumes 0 bytes when constant, 4 otherwise. -/
theorem readKeyField_consumed (buf : List Nat) (pos : Nat) (c : Option Nat)
    (r : Nat × Nat) (h : readKeyField buf pos c = some r) :
    r.2 = if c.isSome then 0 else 4 := by
  cases c with
  | some v =>
    rw [readKeyField] at h
    injection h with h2
    simp [← h2]
  | none =>
    rw [readKeyField] at h
    cases hv : readUIntLE buf pos 4 with
    | none => rw [hv] at h; exact absurd h (by simp)
    | some v =>
      rw [hv] at h
      simp only [Option.map_some, Option.map_some', Option.some.injEq] at h
      simp [← h]

/-- The key part of an index entry consumes exactly `keyFieldsLen flags`. -/
theorem readResourceKey_consumed (buf : List Nat) (pos : Nat)
    (flags : DbpfFlags) (r : ResourceKey × Nat)
    (h : readResourceKey buf pos flags = some r) : r.2 = keyFieldsLen flags := by
  rw [readResourceKey] at h
  cases ht : readKeyField buf pos flags.constantTypeId with
  | none => rw [ht] at h; exact absurd h (by simp)
  | some t =>
    rw [ht] at h
    simp only [Option.some_bind] at h
    cases hg : readKeyField buf (pos + t.2) flags.constantGroupId with
    | none => rw [hg] at h; exact absurd h (by simp)
    | some g =>
      rw [hg] at h
      simp only [Option.some_bind] at h
      cases hi : readKeyField buf (pos + t.2 + g.2) flags.constantInstanceIdEx with
      | none => rw [hi] at h; exact absurd h (by simp)
      | some ie =>
        rw [hi] at h
        simp only [Option.some_bind] at h
        cases hl : readUIntLE buf (pos + t.2 + g.2 + ie.2) 4 with
        | none => rw [hl] at h; exact absurd h (by simp)
        | some il =>
          rw [hl] at h
          simp only [Option.some_bind, Option.some.injEq] at h
          have h2 : r.2 = t.2 + g.2 + ie.2 + 4 := by
            have := congrArg Prod.snd h
            simpa using this.symm
          rw [h2, keyFieldsLen,
            readKeyField_consumed buf pos _ t ht,
            readKeyField_consumed buf (pos + t.2) _ g hg,
            readKeyField_consumed buf (pos + t.2 + g.2) _ ie hi]

/-- C5: every index entry decoded from a DBPF takes its compressed size
from the 32-bit size word with the top bit masked off - so the size is
`word % 2^31`, is at most `0x7FFFFFFF`, and the compression-flag bit (bit
31) never affects it - and the 16-bit compression-type code is read if and
only if that top bit is set. -/
theorem c5_index_bit_packing (buf : List Nat) (pos : Nat) (flags : DbpfFlags)
    (e : IndexEntry) (c : Nat)
    (h : readIndexEntry buf pos flags none = some (some e, c)) :
    ∃ w, readUIntLE buf (pos + keyFieldsLen flags + 4) 4 = some w ∧
      w < 2 ^ 32 ∧ e.mnSize = w % 2 ^ 31 ∧ e.mnSize ≤ 0x7FFFFFFF ∧
      (e.mnCompressionType.isSome ↔ w >>> 31 = 1) := by
  rw [readIndexEntry] at h
  cases hk : readResourceKey buf pos flags with
  | none => rw [hk] at h; exact absurd h (by simp)
  | some kc =>
    rw [hk] at h
    simp only [Option.some_bind] at h
    have hck : kc.2 = keyFieldsLen flags :=
      readResourceKey_consumed buf pos flags kc hk
    rw [readIndexEntryTail] at h
    cases hp : readUIntLE buf (pos + kc.2) 4 with
    | none => rw [hp] at h; exact absurd h (by simp)
    | some mnPos =>
      rw [hp] at h
      simp only [Option.some_bind] at h
      cases hs : readUIntLE buf (pos + kc.2 + 4) 4 with
      | none => rw [hs] at h; exact absurd h (by simp)
      | some szc =>
        rw [hs] at h
        simp only [Option.some_bind] at h
        cases hd : readUIntLE buf (pos + kc.2 + 8) 4 with
        | none => rw [hd] at h; exact absurd h (by simp)
        | some szDec =>
          rw [hd] at h
          simp only [Option.some_bind] at h
          refine ⟨szc, by rw [← hck]; exact hs, ?_, ?_⟩
          · have := readUIntLE_lt buf (pos + kc.2 + 4) 4 szc hs
            norm_num at this ⊢
            omega
          · by_cases hbit : szc >>> 31 = 1
            · rw [if_pos hbit] at h
              cases hct : readUIntLE buf (pos + kc.2 + 12) 2 with
              | none => rw [hct] at h; exact absurd h (by simp)
              | some ctv =>
                rw [hct] at h
                simp only [Option.map_some, Option.map_some',
                  Option.some_bind] at h
                by_cases hdel : ctv = deletedRecordCT
                · rw [if_pos (by simp [hdel])] at h
                  exact absurd h (by simp)
                · rw [if_neg (by simp [hdel])] at h
                  injection h with h2
                  have he2 : (⟨kc.1, mnPos, szc &&& 0x7FFFFFFF, szDec,
                      some ctv⟩ : IndexEntry) = e := by
                    have := congrArg Prod.fst h2
                    simpa using this
                  subst he2
                  refine ⟨?_, ?_, by simp [hbit]⟩
                  · show szc &&& 0x7FFFFFFF = szc % 2 ^ 31
                    have : (0x7FFFFFFF : Nat) = 2 ^ 31 - 1 := by norm_num
                    rw [this]
                    exact Nat.and_pow_two_sub_one_eq_mod szc 31
                  · show szc &&& 0x7FFFFFFF ≤ 0x7FFFFFFF
                    exact Nat.and_le_right
            · rw [if_neg hbit] at h
              simp only [Option.some_bind] at h
              rw [if_neg (by simp [deletedRecordCT])] at h
              injection h with h2
              have he2 : (⟨kc.1, mnPos, szc &&& 0x7FFFFFFF, szDec,
                  none⟩ : IndexEntry) = e := by
                have := congrArg Prod.fst h2
                simpa using this
              subst he2
              refine ⟨?_, ?_, by simp [hbit]⟩
              · show szc &&& 0x7FFFFFFF = szc % 2 ^ 31
                have : (0x7FFFFFFF : Nat) = 2 ^ 31 - 1 := by norm_num
                rw [this]
                exact Nat.and_pow_two_sub_one_eq_mod szc 31
              · show szc &&& 0x7FFFFFFF ≤ 0x7FFFFFFF
                exact Nat.and_le_right

/-- C5, witness: the bit-packing statement at a concrete 32-byte entry with
the compression bit set (size word `0x80000005`). -/
theorem c5_witness :
    ∃ w, readUIntLE S4TK.c5buf (0 + keyFieldsLen ⟨none, none, none⟩ + 4) 4
        = some w ∧
      w < 2 ^ 32 ∧ (5 : Nat) = w % 2 ^ 31 ∧ (5 : Nat) ≤ 0x7FFFFFFF ∧
      ((some 23106 : Option Nat).isSome ↔ w >>> 31 = 1) :=
  c5_index_bit_packing S4TK.c5buf 0 ⟨none, none, none⟩
    ⟨⟨1, 2, 3⟩, 0, 5, 9, some 23106⟩ 32 (by decide)

end S4TK.Dbpf

namespace S4TK.Dbpf

/-- A filter that accepts everything takes exactly the unfiltered path for
every entry. -/
theorem readIndexEntry_acceptAll (buf : List Nat) (pos : Nat)
    (flags : DbpfFlags) :
    readIndexEntry buf pos flags (some fun _ _ _ => true)
      = readIndexEntry buf pos flags none := by
  rw [readIndexEntry, readIndexEntry]
  cases hk : readResourceKey buf pos flags with
  | none => simp
  | some kc => simp

/-- A filter that accepts everything leaves the whole index read
unchanged. -/
theorem readDbpfIndex_acceptAll (buf : List Nat) (flags : DbpfFlags) :
    ∀ (n pos : Nat),
    readDbpfIndex buf flags (some fun _ _ _ => true) n pos
      = readDbpfIndex buf flags none n pos := by
  intro n
  induction n with
  | zero => intro pos; rfl
  | succ m ih =>
    intro pos
    rw [readDbpfIndex, readDbpfIndex, readIndexEntry_acceptAll]
    cases he : readIndexEntry buf pos flags none with
    | none => rfl
    | some ec => simp [ih]

/-- On an entry the unfiltered reader decodes, a filter that rejects
everything skips the entry while advancing the cursor by exactly the same
number of bytes. -/
theorem readIndexEntry_rejectAll (buf : List Nat) (pos : Nat)
    (flags : DbpfFlags) (r : Option IndexEntry × Nat)
    (h : readIndexEntry buf pos flags none = some r) :
    readIndexEntry buf pos flags (some fun _ _ _ => false) = some (none, r.2) := by
  rw [readIndexEntry] at h
  cases hk : readResourceKey buf pos flags with
  | none => rw [hk] at h; exact absurd h (by simp)
  | some kc =>
    rw [hk] at h
    simp only [Option.some_bind] at h
    rw [readIndexEntryTail] at h
    cases hp : readUIntLE buf (pos + kc.2) 4 with
    | none => rw [hp] at h; exact absurd h (by simp)
    | some mnPos =>
      rw [hp] at h
      simp only [Option.some_bind] at h
      cases hs : readUIntLE buf (pos + kc.2 + 4) 4 with
      | none => rw [hs] at h; exact absurd h (by simp)
      | some szc =>
        rw [hs] at h
        simp only [Option.some_bind] at h
        cases hd : readUIntLE buf (pos + kc.2 + 8) 4 with
        | none => rw [hd] at h; exact absurd h (by simp)
        | some szDec =>
          rw [hd] at h
          simp only [Option.some_bind] at h
          have key : r.2 = kc.2 + 8 + (if szc >>> 31 = 1 then 8 else 6) := by
            by_cases hbit : szc >>> 31 = 1
            · rw [if_pos hbit] at h ⊢
              cases hct : readUIntLE buf (pos + kc.2 + 12) 2 with
              | none => rw [hct] at h; exact absurd h (by simp)
              | some ctv =>
                rw [hct] at h
                simp only [Option.map_some, Option.map_some',
                  Option.some_bind] at h
                by_cases hdel : ctv = deletedRecordCT
                · rw [if_pos (by simp [hdel])] at h
                  simp only [Option.some.injEq] at h
                  have := congrArg Prod.snd h
                  simp at this
                  omega
                · rw [if_neg (by simp [hdel])] at h
                  simp only [Option.some.injEq] at h
                  have := congrArg Prod.snd h
                  simp at this
                  omega
            · rw [if_neg hbit] at h ⊢
              simp only [Option.some_bind] at h
              rw [if_neg (by simp [deletedRecordCT])] at h
              simp only [Option.some.injEq] at h
              have := congrArg Prod.snd h
              simp at this
              omega
          rw [readIndexEntry, hk]
          simp only [Option.some_bind]
          show (if (fun (_ _ _ : Nat) => false) kc.1.type kc.1.group kc.1.inst
              = true then readIndexEntryTail buf pos kc.2 kc.1
            else (readUIntLE buf (pos + kc.2 + 4) 4).bind fun szc2 =>
              some (none, kc.2 + 8 + if szc2 >>> 31 = 1 then 8 else 6))
            = some (none, r.2)
          rw [if_neg (by simp), hs]
          simp only [Option.some_bind, Option.some.injEq]
          rw [key]

/-- On an index the unfiltered reader decodes, a filter that rejects
everything yields the empty entry list without failing. -/
theorem readDbpfIndex_rejectAll (buf : List Nat) (flags : DbpfFlags) :
    ∀ (n pos : Nat) (l : List IndexEntry),
    readDbpfIndex buf flags none n pos = some l →
    readDbpfIndex buf flags (some fun _ _ _ => false) n pos = some [] := by
  intro n
  induction n with
  | zero => intro pos l _; rfl
  | succ m ih =>
    intro pos l h
    rw [readDbpfIndex] at h ⊢
    cases he : readIndexEntry buf pos flags none with
    | none => rw [he] at h; exact absurd h (by simp)
    | some ec =>
      rw [he] at h
      simp only [Option.some_bind] at h
      rw [readIndexEntry_rejectAll buf pos flags ec he]
      simp only [Option.some_bind]
      cases hr : readDbpfIndex buf flags none m (pos + ec.2) with
      | none => rw [hr] at h; exact absurd h (by simp)
      | some rest => simp [ih (pos + ec.2) rest hr]

/-- C4: on every well-formed DBPF buffer (one the unfiltered decoder
accepts), decoding with a filter that rejects every entry returns the empty
resource list without failing, decoding with a filter that accepts every
entry returns exactly the unfiltered result, and a rejected entry advances
the index cursor by exactly as many bytes as reading it, so subsequent
entries parse identically. -/
theorem c4_filter_correctness (buf : List Nat) (recoveryMode : Bool)
    (rs : List DecodedEntry)
    (h : readDbpf buf recoveryMode none = some rs) :
    readDbpf buf recoveryMode (some fun _ _ _ => false) = some [] ∧
    readDbpf buf recoveryMode (some fun _ _ _ => true) = some rs ∧
    (∀ pos flags r, readIndexEntry buf pos flags none = some r →
      readIndexEntry buf pos flags (some fun _ _ _ => false)
        = some (none, r.2)) := by
  rw [readDbpf] at h
  cases hh : readDbpfHeader buf recoveryMode with
  | none => rw [hh] at h; exact absurd h (by simp)
  | some header =>
    rw [hh] at h
    simp only [Option.some_bind] at h
    cases hf : readDbpfFlags buf (if header.mnIndexRecordPosition ≠ 0 then
        header.mnIndexRecordPosition else header.mnIndexRecordPositionLow) with
    | none => rw [hf] at h; exact absurd h (by simp)
    | some fc =>
      rw [hf] at h
      simp only [Option.some_bind] at h
      cases hi : readDbpfIndex buf fc.1 none header.mnIndexRecordEntryCount
          ((if header.mnIndexRecordPosition ≠ 0 then
            header.mnIndexRecordPosition else header.mnIndexRecordPositionLow)
            + fc.2) with
      | none => rw [hi] at h; exact absurd h (by simp)
      | some index =>
        rw [hi] at h
        refine ⟨?_, ?_, fun pos flags r hr =>
          readIndexEntry_rejectAll buf pos flags r hr⟩
        · rw [readDbpf, hh]
          simp only [Option.some_bind]
          rw [hf]
          simp only [Option.some_bind]
          rw [readDbpfIndex_rejectAll buf fc.1 _ _ index hi]
          rfl
        · rw [readDbpf, hh]
          simp only [Option.some_bind]
          rw [hf]
          simp only [Option.some_bind]
          rw [readDbpfIndex_acceptAll, hi]
          exact h

end S4TK.Dbpf

namespace S4TK

/-- A read inside a window (a ranged file read of `len` bytes at `base`)
that stays within the window's nominal size sees exactly the bytes of the
backing file: it succeeds if and only if the corresponding absolute read
does, with the same bytes. -/
theorem readBytesAt_slice (file : List Nat) (base len wp n : Nat)
    (hn : 0 < n) (hle : wp + n ≤ len) :
    readBytesAt (sliceAt file base len) wp n = readBytesAt file (base + wp) n := by
  unfold readBytesAt sliceAt
  have hlen : ((file.drop base).take len).length
      = min len (file.length - base) := by
    simp [List.length_take, List.length_drop]
  by_cases hc : base + wp + n ≤ file.length
  · have hc2 : wp + n ≤ ((file.drop base).take len).length := by
      rw [hlen]
      omega
    rw [if_pos hc2, if_pos hc]
    congr 1
    rw [List.drop_take, List.take_take, List.drop_drop]
    congr 1
    omega
  · have hc2 : ¬(wp + n ≤ ((file.drop base).take len).length) := by
      rw [hlen]
      omega
    rw [if_neg hc2, if_neg hc]

/-- `readBytesAt_slice` for little-endian integer reads. -/
theorem readUIntLE_slice (file : List Nat) (base len wp n : Nat)
    (hn : 0 < n) (hle : wp + n ≤ len) :
    readUIntLE (sliceAt file base len) wp n = readUIntLE file (base + wp) n := by
  unfold readUIntLE
  rw [readBytesAt_slice file base len wp n hn hle]

/-- `readUIntLE_slice` for a window starting at the beginning of the
file. -/
theorem readUIntLE_slice0 (file : List Nat) (len wp n : Nat)
    (hn : 0 < n) (hle : wp + n ≤ len) :
    readUIntLE (sliceAt file 0 len) wp n = readUIntLE file wp n := by
  rw [readUIntLE_slice file 0 len wp n hn hle, Nat.zero_add]

/-- `readBytesAt_slice` for a window starting at the beginning of the
file. -/
theorem readBytesAt_slice0 (file : List Nat) (len wp n : Nat)
    (hn : 0 < n) (hle : wp + n ≤ len) :
    readBytesAt (sliceAt file 0 len) wp n = readBytesAt file wp n := by
  rw [readBytesAt_slice file 0 len wp n hn hle, Nat.zero_add]

end S4TK

namespace S4TK.Dbpf

/-- The DBPF header reader reads only within the first 96 bytes, so the
96-byte ranged read of the streaming variant sees exactly what the
in-memory decoder sees. -/
theorem readDbpfHeader_slice96 (file : List Nat) (r : Bool) :
    readDbpfHeader (sliceAt file 0 96) r = readDbpfHeader file r := by
  rw [readDbpfHeader, readDbpfHeader,
    readBytesAt_slice0 file 96 0 4 (by norm_num) (by norm_num),
    readUIntLE_slice0 file 96 4 4 (by norm_num) (by norm_num),
    readUIntLE_slice0 file 96 8 4 (by norm_num) (by norm_num),
    readUIntLE_slice0 file 96 36 4 (by norm_num) (by norm_num),
    readUIntLE_slice0 file 96 40 4 (by norm_num) (by norm_num),
    readUIntLE_slice0 file 96 60 4 (by norm_num) (by norm_num),
    readUIntLE_slice0 file 96 64 8 (by norm_num) (by norm_num)]

/-- A conditional constant-field read within a window. -/
theorem readFlagField_slice (file : List Nat) (base len wp : Nat) (b : Bool)
    (h : wp + 4 ≤ len) :
    readFlagField (sliceAt file base len) wp b
      = readFlagField file (base + wp) b := by
  cases b with
  | false => rfl
  | true =>
    rw [readFlagField, readFlagField,
      readUIntLE_slice file base len wp 4 (by norm_num) h]

/-- A flag field consumes at most 4 bytes. -/
theorem readFlagField_consumed (buf : List Nat) (pos : Nat) (b : Bool)
    (r : Option Nat × Nat) (h : readFlagField buf pos b = some r) : r.2 ≤ 4 := by
  cases b with
  | false =>
    rw [readFlagField] at h
    injection h with h2
    simp [← h2]
  | true =>
    rw [readFlagField] at h
    cases hv : readUIntLE buf pos 4 with
    | none =>
      rw [hv] at h
      exact absurd ((rfl : (none : Option (Option Nat × Nat)) = none).trans h)
        (by simp)
    | some v =>
      rw [hv] at h
      have h2 : some ((some v : Option Nat), (4 : Nat)) = some r := h
      injection h2 with h3
      rw [← h3]

/-- The DBPF flags reader consumes at most 16 bytes, so the 16-byte ranged
read of the streaming variant sees exactly what the in-memory decoder
sees (including the relative end position `decoder.tell()`). -/
theorem readDbpfFlags_slice (file : List Nat) (fp : Nat) :
    readDbpfFlags (sliceAt file fp 16) 0 = readDbpfFlags file fp := by
  rw [readDbpfFlags, readDbpfFlags,
    readUIntLE_slice file fp 16 0 1 (by norm_num) (by norm_num), Nat.add_zero]
  cases hb : readUIntLE file fp 1 with
  | none => rfl
  | some flags =>
    simp only [Option.some_bind]
    rw [show (0 : Nat) + 4 = 4 from rfl,
      readFlagField_slice file fp 16 4 (flags.testBit 0) (by norm_num)]
    cases ht : readFlagField file (fp + 4) (flags.testBit 0) with
    | none => rfl
    | some tc =>
      have htc := readFlagField_consumed file (fp + 4) (flags.testBit 0) tc ht
      simp only [Option.some_bind]
      rw [readFlagField_slice file fp 16 (4 + tc.2) (flags.testBit 1) (by omega),
        show fp + (4 + tc.2) = fp + 4 + tc.2 from by omega]
      cases hg : readFlagField file (fp + 4 + tc.2) (flags.testBit 1) with
      | none => rfl
      | some gc =>
        have hgc := readFlagField_consumed file (fp + 4 + tc.2)
          (flags.testBit 1) gc hg
        simp only [Option.some_bind]
        rw [readFlagField_slice file fp 16 (4 + tc.2 + gc.2) (flags.testBit 2)
            (by omega),
          show fp + (4 + tc.2 + gc.2) = fp + 4 + tc.2 + gc.2 from by omega]

/-- A key field within a window. -/
theorem readKeyField_slice (file : List Nat) (base len wp : Nat)
    (c : Option Nat) (h : wp + 4 ≤ len) :
    readKeyField (sliceAt file base len) wp c = readKeyField file (base + wp) c := by
  cases c with
  | some v => rfl
  | none =>
    rw [readKeyField, readKeyField,
      readUIntLE_slice file base len wp 4 (by norm_num) h]

/-- A key field consumes at most 4 bytes. -/
theorem readKeyField_le (buf : List Nat) (pos : Nat) (c : Option Nat)
    (r : Nat × Nat) (h : readKeyField buf pos c = some r) : r.2 ≤ 4 := by
  have := readKeyField_consumed buf pos c r h
  rw [this]
  cases c <;> simp

/-- The key part of an index entry within a window (it spans at most 16
bytes). -/
theorem readResourceKey_slice (file : List Nat) (base len wp : Nat)
    (flags : DbpfFlags) (h : wp + 16 ≤ len) :
    readResourceKey (sliceAt file base len) wp flags
      = readResourceKey file (base + wp) flags := by
  rw [readResourceKey, readResourceKey,
    readKeyField_slice file base len wp flags.constantTypeId (by omega)]
  cases ht : readKeyField file (base + wp) flags.constantTypeId with
  | none => rfl
  | some t =>
    have htc := readKeyField_le file (base + wp) flags.constantTypeId t ht
    simp only [Option.some_bind]
    rw [readKeyField_slice file base len (wp + t.2) flags.constantGroupId
        (by omega),
      show base + (wp + t.2) = base + wp + t.2 from by omega]
    cases hg : readKeyField file (base + wp + t.2) flags.constantGroupId with
    | none => rfl
    | some g =>
      have hgc := readKeyField_le file (base + wp + t.2) flags.constantGroupId g hg
      simp only [Option.some_bind]
      rw [readKeyField_slice file base len (wp + t.2 + g.2)
          flags.constantInstanceIdEx (by omega),
        show base + (wp + t.2 + g.2) = base + wp + t.2 + g.2 from by omega]
      cases hi : readKeyField file (base + wp + t.2 + g.2)
          flags.constantInstanceIdEx with
      | none => rfl
      | some ie =>
        have hic := readKeyField_le file (base + wp + t.2 + g.2)
          flags.constantInstanceIdEx ie hi
        simp only [Option.some_bind]
        rw [readUIntLE_slice file base len (wp + t.2 + g.2 + ie.2) 4
            (by norm_num) (by omega),
          show base + (wp + t.2 + g.2 + ie.2) = base + wp + t.2 + g.2 + ie.2
            from by omega]

/-- The tail of an index entry within a window (with the key spanning `ck`
bytes, the tail reads end within 16 further bytes). -/
theorem readIndexEntryTail_slice (file : List Nat) (base len wp ck : Nat)
    (key : ResourceKey) (h : wp + ck + 16 ≤ len) :
    readIndexEntryTail (sliceAt file base len) wp ck key
      = readIndexEntryTail file (base + wp) ck key := by
  rw [readIndexEntryTail, readIndexEntryTail,
    readUIntLE_slice file base len (wp + ck) 4 (by norm_num) (by omega),
    show base + (wp + ck) = base + wp + ck from by omega,
    readUIntLE_slice file base len (wp + ck + 4) 4 (by norm_num) (by omega),
    show base + (wp + ck + 4) = base + wp + ck + 4 from by omega,
    readUIntLE_slice file base len (wp + ck + 8) 4 (by norm_num) (by omega),
    show base + (wp + ck + 8) = base + wp + ck + 8 from by omega,
    readUIntLE_slice file base len (wp + ck + 12) 2 (by norm_num) (by omega),
    show base + (wp + ck + 12) = base + wp + ck + 12 from by omega]

/-- One whole index entry within a window (an entry spans at most 32
bytes, the bound the streaming variant sizes its ranged read by). -/
theorem readIndexEntry_slice (file : List Nat) (base len wp : Nat)
    (flags : DbpfFlags) (filter : Option ResourceFilter) (h : wp + 32 ≤ len) :
    readIndexEntry (sliceAt file base len) wp flags filter
      = readIndexEntry file (base + wp) flags filter := by
  rw [readIndexEntry, readIndexEntry,
    readResourceKey_slice file base len wp flags (by omega)]
  cases hk : readResourceKey file (base + wp) flags with
  | none => rfl
  | some kc =>
    have hck : kc.2 = keyFieldsLen flags :=
      readResourceKey_consumed file (base + wp) flags kc hk
    have hck16 : kc.2 ≤ 16 := by
      rw [hck, keyFieldsLen]
      split_ifs <;> omega
    simp only [Option.some_bind]
    cases filter with
    | none => exact readIndexEntryTail_slice file base len wp kc.2 kc.1 (by omega)
    | some f =>
      show (if f kc.1.type kc.1.group kc.1.inst = true
          then readIndexEntryTail (sliceAt file base len) wp kc.2 kc.1
          else (readUIntLE (sliceAt file base len) (wp + kc.2 + 4) 4).bind
            fun szc => some (none, kc.2 + 8 + if szc >>> 31 = 1 then 8 else 6))
        = (if f kc.1.type kc.1.group kc.1.inst = true
          then readIndexEntryTail file (base + wp) kc.2 kc.1
          else (readUIntLE file (base + wp + kc.2 + 4) 4).bind
            fun szc => some (none, kc.2 + 8 + if szc >>> 31 = 1 then 8 else 6))
      by_cases hf : f kc.1.type kc.1.group kc.1.inst = true
      · rw [if_pos hf, if_pos hf]
        exact readIndexEntryTail_slice file base len wp kc.2 kc.1 (by omega)
      · rw [if_neg hf, if_neg hf,
          readUIntLE_slice file base len (wp + kc.2 + 4) 4 (by norm_num)
            (by omega),
          show base + (wp + kc.2 + 4) = base + wp + kc.2 + 4 from by omega]

/-- An index entry consumes at most 32 bytes. -/
theorem readIndexEntry_consumed (buf : List Nat) (pos : Nat)
    (flags : DbpfFlags) (filter : Option ResourceFilter)
    (r : Option IndexEntry × Nat) (h : readIndexEntry buf pos flags filter = some r) :
    r.2 ≤ 32 := by
  rw [readIndexEntry] at h
  cases hk : readResourceKey buf pos flags with
  | none => rw [hk] at h; exact absurd h (by simp)
  | some kc =>
    rw [hk] at h
    simp only [Option.some_bind] at h
    have hck : kc.2 = keyFieldsLen flags :=
      readResourceKey_consumed buf pos flags kc hk
    have hck16 : kc.2 ≤ 16 := by
      rw [hck, keyFieldsLen]
      split_ifs <;> omega
    have htail : ∀ rr : Option IndexEntry × Nat,
        readIndexEntryTail buf pos kc.2 kc.1 = some rr → rr.2 ≤ 32 := by
      intro rr hrr
      rw [readIndexEntryTail] at hrr
      cases hp : readUIntLE buf (pos + kc.2) 4 with
      | none => rw [hp] at hrr; exact absurd hrr (by simp)
      | some mnPos =>
        rw [hp] at hrr
        simp only [Option.some_bind] at hrr
        cases hs : readUIntLE buf (pos + kc.2 + 4) 4 with
        | none => rw [hs] at hrr; exact absurd hrr (by simp)
        | some szc =>
          rw [hs] at hrr
          simp only [Option.some_bind] at hrr
          cases hd : readUIntLE buf (pos + kc.2 + 8) 4 with
          | none => rw [hd] at hrr; exact absurd hrr (by simp)
          | some szDec =>
            rw [hd] at hrr
            simp only [Option.some_bind] at hrr
            by_cases hbit : szc >>> 31 = 1
            · rw [if_pos hbit] at hrr
              cases hct : readUIntLE buf (pos + kc.2 + 12) 2 with
              | none => rw [hct] at hrr; exact absurd hrr (by simp)
              | some ctv =>
                rw [hct] at hrr
                simp only [Option.map_some, Option.map_some',
                  Option.some_bind] at hrr
                by_cases hdel : ctv = deletedRecordCT
                · rw [if_pos (by simp [hdel])] at hrr
                  simp only [Option.some.injEq] at hrr
                  have := congrArg Prod.snd hrr
                  simp at this
                  omega
                · rw [if_neg (by simp [hdel])] at hrr
                  simp only [Option.some.injEq] at hrr
                  have := congrArg Prod.snd hrr
                  simp at this
                  omega
            · rw [if_neg hbit] at hrr
              simp only [Option.some_bind] at hrr
              rw [if_neg (by simp [deletedRecordCT])] at hrr
              simp only [Option.some.injEq] at hrr
              have := congrArg Prod.snd hrr
              simp at this
              omega
    cases filter with
    | none => exact htail r h
    | some f =>
      have h2 : (if f kc.1.type kc.1.group kc.1.inst = true
          then readIndexEntryTail buf pos kc.2 kc.1
          else (readUIntLE buf (pos + kc.2 + 4) 4).bind fun szc =>
            some (none, kc.2 + 8 + if szc >>> 31 = 1 then 8 else 6))
          = some r := h
      by_cases hf : f kc.1.type kc.1.group kc.1.inst = true
      · rw [if_pos hf] at h2
        exact htail r h2
      · rw [if_neg hf] at h2
        cases hs : readUIntLE buf (pos + kc.2 + 4) 4 with
        | none => rw [hs] at h2; exact absurd h2 (by simp)
        | some szc =>
          rw [hs] at h2
          simp only [Option.some_bind, Option.some.injEq] at h2
          have := congrArg Prod.snd h2
          simp at this
          by_cases hbit : szc >>> 31 = 1
          · rw [if_pos hbit] at this; omega
          · rw [if_neg hbit] at this; omega

/-- The whole index read within a window of `n * 32` bytes (the streaming
variant's `entryCount * 32` ranged read is always wide enough). -/
theorem readDbpfIndex_slice (file : List Nat) (base len : Nat)
    (flags : DbpfFlags) (filter : Option ResourceFilter) :
    ∀ (n wp : Nat), wp + n * 32 ≤ len →
    readDbpfIndex (sliceAt file base len) flags filter n wp
      = readDbpfIndex file flags filter n (base + wp) := by
  intro n
  induction n with
  | zero => intro wp _; rfl
  | succ m ih =>
    intro wp hle
    rw [readDbpfIndex, readDbpfIndex,
      readIndexEntry_slice file base len wp flags filter (by omega)]
    cases he : readIndexEntry file (base + wp) flags filter with
    | none => rfl
    | some ec =>
      have hec := readIndexEntry_consumed file (base + wp) flags filter ec he
      simp only [Option.some_bind]
      rw [ih (wp + ec.2) (by omega),
        show base + (wp + ec.2) = base + wp + ec.2 from by omega]

/-- C1, amended: for every byte sequence and options with recovery mode
off, the streaming container decoder (header, flags and index through
short ranged reads, the index sized `entryCount * 32`, then one ranged read
per payload) produces exactly the in-memory decoder's ordered entry list -
the same `(key, index entry, payload bytes)` triples, hence the same
`(key, resource)` pairs, as `getResource` is a function of those triples
and the options. With recovery mode on the two can disagree, because
`streamDbpf` does not forward the options to its header read (see the
counterexample). -/
theorem c1_stream_matches_inmemory (file : List Nat)
    (filter : Option ResourceFilter) (recoveryMode : Bool)
    (h : recoveryMode = false) :
    streamDbpf file recoveryMode filter = readDbpf file recoveryMode filter := by
  subst h
  rw [streamDbpf, readDbpf, readDbpfHeader_slice96]
  cases hh : readDbpfHeader file false with
  | none => rfl
  | some header =>
    simp only [Option.some_bind]
    rw [readDbpfFlags_slice file (if header.mnIndexRecordPosition ≠ 0 then
      header.mnIndexRecordPosition else header.mnIndexRecordPositionLow)]
    cases hf : readDbpfFlags file (if header.mnIndexRecordPosition ≠ 0 then
        header.mnIndexRecordPosition else header.mnIndexRecordPositionLow) with
    | none => rfl
    | some fc =>
      simp only [Option.some_bind]
      rw [readDbpfIndex_slice file ((if header.mnIndexRecordPosition ≠ 0 then
          header.mnIndexRecordPosition else header.mnIndexRecordPositionLow)
          + fc.2) (header.mnIndexRecordEntryCount * 32) fc.1 filter
          header.mnIndexRecordEntryCount 0 (by omega), Nat.add_zero]

/-- C1, counterexample: with `recoveryMode` and a buffer whose header has
no DBPF magic (entry count 0, index position 96), the in-memory decoder
succeeds with an empty entry list, while the streaming variant - which
reads its header without forwarding the options - rejects the file, so the
two decoders do not agree for every buffer and options. -/
theorem c1_counterexample :
    readDbpf S4TK.c1bad true none = some [] ∧
    streamDbpf S4TK.c1bad true none = none := by decide

/-- C1, witness: the amended equivalence at the concrete one-resource
container. -/
theorem c1_witness :
    streamDbpf S4TK.demoDbpf false none = readDbpf S4TK.demoDbpf false none :=
  c1_stream_matches_inmemory S4TK.demoDbpf none false rfl

end S4TK.Dbpf

namespace S4TK.Dbpf

/-- C4, witness: filter correctness at the concrete one-resource
container. -/
theorem c4_witness :
    readDbpf S4TK.demoDbpf false (some fun _ _ _ => false) = some [] ∧
    readDbpf S4TK.demoDbpf false (some fun _ _ _ => true)
      = some S4TK.demoDbpfDecoded ∧
    (∀ pos flags r, readIndexEntry S4TK.demoDbpf pos flags none = some r →
      readIndexEntry S4TK.demoDbpf pos flags (some fun _ _ _ => false)
        = some (none, r.2)) :=
  c4_filter_correctness S4TK.demoDbpf false S4TK.demoDbpfDecoded (by decide)

end S4TK.Dbpf
